import Mathlib

/-!
Verification of the message-chunking and Telegram-bridge subsystem of
mcp-feedback-enhanced.

Python strings are modelled as `List Char` (`PyStr`); `len` is `List.length`
(Python counts code points, as does `List Char`).  Times (`time.time()`,
`datetime.now()`) are modelled as rationals.  Each definition below is a
direct translation of the correspondingly named function in
`src/mcp_feedback_enhanced/utils/message_chunker.py`,
`utils/telegram_manager.py` or `utils/mcp_telegram_bridge.py`.
-/

namespace MCPFeedback

abbrev PyStr := List Char

/-- Characters for which Python `str.isspace()` / `str.strip()` / `str.split()`
and the regex class `\s` (on `str` patterns) report whitespace. -/
def pyWs (c : Char) : Bool :=
  let n := c.toNat
  (9 ≤ n && n ≤ 13) || n == 32 || (28 ≤ n && n ≤ 31) || n == 133 || n == 160 ||
  n == 5760 || (8192 ≤ n && n ≤ 8202) || n == 8232 || n == 8233 || n == 8239 ||
  n == 8287 || n == 12288

/-- Python `str.strip()` with no argument: drop whitespace on both ends. -/
def pyStrip (s : PyStr) : PyStr :=
  ((s.dropWhile pyWs).reverse.dropWhile pyWs).reverse

/-- Worker for `pySplitWs`: accumulates the current word (reversed). -/
def pySplitWsGo : PyStr → PyStr → List PyStr
  | cur, [] => if cur = [] then [] else [cur.reverse]
  | cur, c :: rest =>
    if pyWs c then
      if cur = [] then pySplitWsGo [] rest else cur.reverse :: pySplitWsGo [] rest
    else pySplitWsGo (c :: cur) rest

/-- Python `str.split()` with no argument: split on whitespace runs, dropping
empty pieces. -/
def pySplitWs (s : PyStr) : List PyStr := pySplitWsGo [] s

/-- Worker for `pySplitOn`: split on the (nonempty) separator `c :: cs`,
leftmost non-overlapping occurrences.  Structural recursion on fuel so the
kernel can evaluate it; any fuel at least the input length gives the split
(both recursive calls strictly shorten the input). -/
def splitOnGo (c : Char) (cs : PyStr) : ℕ → PyStr → List PyStr
  | _, [] => [[]]
  | 0, s => [s]
  | f + 1, d :: s =>
    if (c :: cs).isPrefixOf (d :: s) then
      [] :: splitOnGo c cs f ((d :: s).drop (cs.length + 1))
    else
      match splitOnGo c cs f s with
      | [] => [[d]]
      | p :: ps => (d :: p) :: ps

/-- Python `str.split(sep)` for a nonempty separator.  (Python raises on an
empty separator; that case is never used.) -/
def pySplitOn (sep : PyStr) (s : PyStr) : List PyStr :=
  match sep with
  | [] => [s]
  | c :: cs => splitOnGo c cs s.length s

/-- Python `sep.join(parts)`. -/
def joinSep (sep : PyStr) : List PyStr → PyStr
  | [] => []
  | [p] => p
  | p :: q :: ps => p ++ sep ++ joinSep sep (q :: ps)

/-- Decimal digits of a natural number, as Python `str(n)` produces. -/
def natStr (n : ℕ) : PyStr := Nat.toDigits 10 n

/-- Python `str(i)` for an integer. -/
def intStr (i : ℤ) : PyStr :=
  if i < 0 then '-' :: natStr i.natAbs else natStr i.natAbs

/-- Python `"{:,}".format(n)`: decimal digits with thousands separators. -/
def natStrCommaGo : List Char → List Char
  | d1 :: d2 :: d3 :: d4 :: rest => d1 :: d2 :: d3 :: ',' :: natStrCommaGo (d4 :: rest)
  | l => l

/-- Python `f"{n:,}"` on a natural number. -/
def natStrComma (n : ℕ) : PyStr := (natStrCommaGo (natStr n).reverse).reverse

/-- Python `sub in s` for a nonempty substring `sub`. -/
def containsSub (sub s : PyStr) : Bool := decide (2 ≤ (pySplitOn sub s).length)

/-- The backtick character (U+0060). -/
def btick : Char := Char.ofNat 96

/-- The string of three backticks opening/closing a fenced code block. -/
def fenceS : PyStr := [btick, btick, btick]

/-- The left curly brace character. -/
def lbrace : Char := Char.ofNat 123

/-- The right curly brace character. -/
def rbrace : Char := Char.ofNat 125

/-- Newline, as a one-character string. -/
def nlS : PyStr := ['\n']

/-- A blank-line separator (two newlines). -/
def nl2 : PyStr := ['\n', '\n']

/-! ## Content inspection (`MessageChunker` class patterns)

`CODE_BLOCK_PATTERN = ```[\s\S]*?``` `: a (lazy, leftmost) match exists iff
the text contains at least two non-overlapping occurrences of three backticks,
i.e. splitting on three backticks yields at least three pieces. -/

/-- `re.search(CODE_BLOCK_PATTERN, s)` succeeds. -/
def hasFencePair (s : PyStr) : Bool := decide (3 ≤ (pySplitOn fenceS s).length)

/-- `re.search` for `INLINE_CODE_PATTERN = `[^`]+` `.
State: `opened` — a backtick has been seen; `body` — at least one non-backtick
character followed it. -/
def inlineCodeGo (opened body : Bool) : PyStr → Bool
  | [] => false
  | c :: rest =>
    if c == btick then
      if opened && body then true else inlineCodeGo true false rest
    else
      if opened then inlineCodeGo true true rest else inlineCodeGo false false rest

/-- `re.search(INLINE_CODE_PATTERN, s)` succeeds. -/
def hasInlineCode (s : PyStr) : Bool := inlineCodeGo false false s

/-- `re.search` for a pattern `dl [^ex]+ dl` where the delimiter `dl` starts
with the excluded character `ex` (bold `\*\*[^*]+\*\*`, italic `\*[^*]+\*`,
underline `__[^_]+__`, strikethrough `~~[^~]+~~`).  Because the body cannot
contain `ex`, at a given start position the body is forced to end at the first
`ex`, so existence of a match is a per-position check. -/
def delimSearch (dl : PyStr) (ex : Char) : PyStr → Bool
  | [] => false
  | c :: rest =>
    (if dl.isPrefixOf (c :: rest) then
      let afterOpen := (c :: rest).drop dl.length
      let body := afterOpen.takeWhile (fun d => !(d == ex))
      decide (body ≠ []) && dl.isPrefixOf (afterOpen.drop body.length)
    else false) || delimSearch dl ex rest

/-- `re.search` for the link pattern `\[([^\]]+)\]\(([^)]+)\)`. -/
def linkSearch : PyStr → Bool
  | [] => false
  | c :: rest =>
    (if c == '[' then
      let body1 := rest.takeWhile (fun d => !(d == ']'))
      match rest.drop body1.length with
      | ']' :: '(' :: r2 =>
        decide (body1 ≠ []) &&
        (let body2 := r2.takeWhile (fun d => !(d == ')'))
         decide (body2 ≠ []) && ((r2.drop body2.length).head? == some ')'))
      | _ => false
    else false) || linkSearch rest

/-- `MessageChunker._has_code_blocks`. -/
def hasCodeBlocks (s : PyStr) : Bool := hasFencePair s || hasInlineCode s

/-- `MessageChunker._has_markdown`: any of the five `MARKDOWN_PATTERNS`. -/
def hasMarkdown (s : PyStr) : Bool :=
  delimSearch ['*', '*'] '*' s || delimSearch ['*'] '*' s ||
  delimSearch ['_', '_'] '_' s || delimSearch ['~', '~'] '~' s || linkSearch s

/-! ## A JSON validity checker modelling `json.loads` success

`json.loads` is Python standard-library code, external to this repository; it
is modelled here as an RFC 8259 recursive-descent validator extended with the
constants `NaN`, `Infinity` and `-Infinity` that Python accepts by default.
Fuel bounds recursion depth (Python likewise fails on very deeply nested
input via its recursion limit). -/

/-- JSON structural whitespace. -/
def jWsChar (c : Char) : Bool := c == ' ' || c == '\t' || c == '\n' || c == '\r'

/-- Skip JSON whitespace. -/
def jSkip (s : PyStr) : PyStr := s.dropWhile jWsChar

/-- ASCII decimal digit. -/
def jDigit (c : Char) : Bool := '0' ≤ c && c ≤ '9'

/-- ASCII hexadecimal digit. -/
def jHex (c : Char) : Bool :=
  jDigit c || ('a' ≤ c && c ≤ 'f') || ('A' ≤ c && c ≤ 'F')

/-- Parse the remainder of a JSON string (after the opening quote); returns
the input following the closing quote. -/
def jStr : ℕ → PyStr → Option PyStr
  | 0, _ => none
  | _, [] => none
  | f + 1, c :: r =>
    if c == '"' then some r
    else if c == '\\' then
      match r with
      | [] => none
      | e :: r2 =>
        if e == 'u' then
          match r2 with
          | h1 :: h2 :: h3 :: h4 :: r3 =>
            if jHex h1 && jHex h2 && jHex h3 && jHex h4 then jStr f r3 else none
          | _ => none
        else if e == '"' || e == '\\' || e == '/' || e == 'b' || e == 'f' ||
                e == 'n' || e == 'r' || e == 't' then jStr f r2
        else none
    else if c.toNat < 32 then none
    else jStr f r

/-- Parse the integer-and-fraction-and-exponent body of a JSON number,
`(0|[1-9][0-9]*)(\.[0-9]+)?([eE][+-]?[0-9]+)?`, after an optional sign has
been consumed. -/
def jNumBody (s : PyStr) : Option PyStr :=
  match s with
  | [] => none
  | c :: r =>
    if !(jDigit c) then none
    else
      let afterInt := if c == '0' then r else r.dropWhile jDigit
      let afterFrac :=
        match afterInt with
        | '.' :: r2 =>
          let ds := r2.takeWhile jDigit
          if ds = [] then none else some (r2.drop ds.length)
        | _ => some afterInt
      match afterFrac with
      | none => none
      | some r3 =>
        match r3 with
        | 'e' :: r4 | 'E' :: r4 =>
          let r5 := match r4 with
            | '+' :: r5 => r5
            | '-' :: r5 => r5
            | _ => r4
          let ds := r5.takeWhile jDigit
          if ds = [] then none else some (r5.drop ds.length)
        | _ => some r3

/-- Parse a JSON number with optional leading minus. -/
def jNum (s : PyStr) : Option PyStr :=
  match s with
  | '-' :: r => jNumBody r
  | _ => jNumBody s

mutual

/-- Parse one JSON value; returns the unconsumed remainder. -/
def jVal : ℕ → PyStr → Option PyStr
  | 0, _ => none
  | f + 1, s =>
    match s with
    | [] => none
    | c :: r =>
      if c == lbrace then
        match jSkip r with
        | [] => none
        | d :: r1 => if d == rbrace then some r1 else jPair f (d :: r1)
      else if c == '[' then
        match jSkip r with
        | [] => none
        | d :: r1 => if d == ']' then some r1 else jItem f (d :: r1)
      else if c == '"' then jStr (f + 1) r
      else if (['t','r','u','e']).isPrefixOf s then some (s.drop 4)
      else if (['f','a','l','s','e']).isPrefixOf s then some (s.drop 5)
      else if (['n','u','l','l']).isPrefixOf s then some (s.drop 4)
      else if (['N','a','N']).isPrefixOf s then some (s.drop 3)
      else if (['I','n','f','i','n','i','t','y']).isPrefixOf s then some (s.drop 8)
      else if (['-','I','n','f','i','n','i','t','y']).isPrefixOf s then some (s.drop 9)
      else jNum s

/-- Parse a `"key" : value` object member, then the object tail. -/
def jPair : ℕ → PyStr → Option PyStr
  | 0, _ => none
  | f + 1, s =>
    match s with
    | '"' :: r =>
      match jStr (f + 1) r with
      | some r1 =>
        match jSkip r1 with
        | ':' :: r2 =>
          match jVal f (jSkip r2) with
          | some r3 => jObjTail f (jSkip r3)
          | none => none
        | _ => none
      | none => none
    | _ => none

/-- After an object member: expect `,` (next member) or the closing brace. -/
def jObjTail : ℕ → PyStr → Option PyStr
  | 0, _ => none
  | f + 1, s =>
    match s with
    | c :: r =>
      if c == rbrace then some r
      else if c == ',' then jPair f (jSkip r)
      else none
    | [] => none

/-- Parse an array item, then `,` (next item) or `]`. -/
def jItem : ℕ → PyStr → Option PyStr
  | 0, _ => none
  | f + 1, s =>
    match jVal f s with
    | some r1 =>
      match jSkip r1 with
      | ',' :: r2 => jItem f (jSkip r2)
      | ']' :: r2 => some r2
      | _ => none
    | none => none

end

/-- `json.loads(s)` succeeds (modulo the modelling caveats above). -/
def jsonLoadsOk (s : PyStr) : Bool :=
  match jVal (2 * s.length + 4) (jSkip s) with
  | some r => decide (jSkip r = [])
  | none => false

/-! ## Chunker data model (`message_chunker.py`) -/

/-- `ChunkType` enum. -/
inductive ChunkType where
  | text | code | json | list | table | mixed
deriving DecidableEq

/-- `ChunkType.value` (the enum member strings). -/
def ChunkType.value : ChunkType → PyStr
  | .text => ("text").data
  | .code => ("code").data
  | .json => ("json").data
  | .list => ("list").data
  | .table => ("table").data
  | .mixed => ("mixed").data

/-- `ChunkStrategy` enum. -/
inductive ChunkStrategy where
  | sentence_boundary | paragraph_boundary | code_block_boundary
  | line_boundary | word_boundary | character_boundary
deriving DecidableEq

/-- `ChunkMetadata` dataclass.  `chunk_index` is an integer because the
summary chunk uses the reserved index `-1`. -/
structure ChunkMetadata where
  chunk_index : ℤ
  total_chunks : ℕ
  chunk_type : ChunkType
  strategy_used : ChunkStrategy
  original_length : ℕ
  chunk_length : ℕ
  has_code : Bool
  has_markdown : Bool
  context_preserved : Bool
  continuation_marker : Option PyStr := none
deriving DecidableEq

/-- `MessageChunk` dataclass. -/
structure MessageChunk where
  content : PyStr
  metadata : ChunkMetadata
  preview : Option PyStr := none
  navigation_info : Option PyStr := none
deriving DecidableEq

/-- The constructor-argument record of `MessageChunker.__init__`. -/
structure ChunkerCfg where
  max_chunk_size : ℕ := 3800
  preserve_code_blocks : Bool := true
  preserve_markdown : Bool := true
  add_navigation : Bool := true
  add_previews : Bool := true
deriving DecidableEq

/-- `MessageChunk.to_telegram_message`.  Python truthiness of
`navigation_info` and `continuation_marker` (None or empty string are falsy)
is modelled by the emptiness checks. -/
def MessageChunk.to_telegram_message (self : MessageChunk)
    (include_metadata : Bool := true) : PyStr :=
  let navLines : List PyStr :=
    match self.navigation_info with
    | some nav => if nav ≠ [] && include_metadata then [nav, []] else []
    | none => []
  let contLines : List PyStr :=
    match self.metadata.continuation_marker with
    | some m => if m ≠ [] then [[], m] else []
    | none => []
  let footer : PyStr :=
    ("📄 Part ").data ++ intStr (self.metadata.chunk_index + 1) ++ ('/' ::
      natStr self.metadata.total_chunks) ++ (" (").data ++
      natStr self.metadata.chunk_length ++ (" chars, ").data ++
      self.metadata.chunk_type.value ++ (")").data
  let footLines : List PyStr :=
    if include_metadata && decide (1 < self.metadata.total_chunks)
    then [[], footer] else []
  joinSep nlS (navLines ++ [self.content] ++ contLines ++ footLines)

/-- A line matching the bullet-list pattern `^\s*[-*•]\s+`. -/
def isListLine (l : PyStr) : Bool :=
  match l.dropWhile pyWs with
  | c :: r =>
    (c == '-' || c == '*' || c == '•') &&
    (match r with
     | d :: _ => pyWs d
     | [] => false)
  | [] => false

/-- The trimmed text looks like a JSON object or array at its ends
(the guard before the `json.loads` attempt in `_detect_content_type`). -/
def startsEndsBrace (s : PyStr) : Bool :=
  (s.head? == some lbrace && s.getLast? == some rbrace) ||
  (s.head? == some '[' && s.getLast? == some ']')

/-- `MessageChunker._detect_content_type`.  The list and table thresholds in
Python are the float comparisons `list_lines > len(lines) * 0.5` and
`table_lines > len(lines) * 0.3`; `n * 0.5` is exact in binary floating point
so the first is exactly `2 * list_lines > n`.  The second is modelled as the
exact rational `10 * table_lines > 3 * n` (the float product can round just
below the exact value at multiples of ten; no claim touches that boundary). -/
def detectContentType (content : PyStr) : ChunkType :=
  if hasFencePair content then .code
  else
    let stripped := pyStrip content
    if startsEndsBrace stripped && jsonLoadsOk stripped then .json
    else
      let lines := pySplitOn nlS content
      let listLines := (lines.filter isListLine).length
      if decide (lines.length < 2 * listLines) then .list
      else
        let tableLines := (lines.filter (fun l => l.contains '|')).length
        if decide (3 * lines.length < 10 * tableLines) then .table
        else .text

/-- `MessageChunker._choose_chunking_strategy`. -/
def chooseStrategy (cfg : ChunkerCfg) (content : PyStr) (ct : ChunkType) :
    ChunkStrategy :=
  match ct with
  | .code => if cfg.preserve_code_blocks then .code_block_boundary else .line_boundary
  | .json => .line_boundary
  | .list => .line_boundary
  | .table => .line_boundary
  | _ => if containsSub nl2 content then .paragraph_boundary else .sentence_boundary

/-- `MessageChunker._create_chunk`: a chunk with placeholder index/total. -/
def createChunk (ct : ChunkType) (strat : ChunkStrategy) (content : PyStr) :
    MessageChunk :=
  { content := content
    metadata :=
      { chunk_index := 0
        total_chunks := 0
        chunk_type := ct
        strategy_used := strat
        original_length := 0
        chunk_length := content.length
        has_code := hasCodeBlocks content
        has_markdown := hasMarkdown content
        context_preserved := true } }

/-! ## Splitting strategies -/

/-- Slices of `re`-free last-resort splitting, `_chunk_by_characters`:
`content[i:i+max]` for `i in range(0, len(content), max)`.  Python raises
`ValueError` when `max = 0` (step 0); that case is modelled as no chunks and
excluded by hypotheses wherever it matters. -/
def charSlicesGo (m : ℕ) : ℕ → PyStr → List PyStr
  | _, [] => []
  | 0, _ => []
  | f + 1, d :: s => (d :: s).take (m + 1) :: charSlicesGo m f ((d :: s).drop (m + 1))

/-- `content[i:i+max]` slices (fuel at least the length always suffices:
each step drops at least one character). -/
def charSlices : ℕ → PyStr → List PyStr
  | 0, _ => []
  | m + 1, s => charSlicesGo m s.length s

/-- `MessageChunker._chunk_by_characters`. -/
def chunkByChars (max : ℕ) (ct : ChunkType) (content : PyStr) :
    List MessageChunk :=
  (charSlices max content).map (createChunk ct .character_boundary)

/-- The word-accumulation loop of `_chunk_by_words`.  `cur` is
`current_chunk`; the test string is `current + (' ' if current else '') +
word`; an oversized word escalates to character chunks. -/
def goWords (max : ℕ) (ct : ChunkType) : PyStr → List PyStr → List MessageChunk
  | cur, [] => if cur = [] then [] else [createChunk ct .word_boundary cur]
  | cur, w :: ws =>
    let test := if cur = [] then w else cur ++ (' ' :: w)
    if test.length ≤ max then goWords max ct test ws
    else
      (if cur = [] then [] else [createChunk ct .word_boundary cur]) ++
      (if max < w.length then chunkByChars max ct w ++ goWords max ct [] ws
       else goWords max ct w ws)

/-- `MessageChunker._chunk_by_words`. -/
def chunkByWords (max : ℕ) (ct : ChunkType) (content : PyStr) :
    List MessageChunk :=
  goWords max ct [] (pySplitWs content)

/-- `re.split(r'(?<=[.!?])\s+', content)`: cut at each whitespace run that
follows `.`, `!` or `?`, consuming the whole run.  `prev` is the character
preceding the current position (after a cut it is a consumed whitespace
character, which never satisfies the lookbehind). -/
def sentGo (prev : Option Char) (cur : PyStr) : ℕ → PyStr → List PyStr
  | _, [] => [cur.reverse]
  | 0, s => [cur.reverse ++ s]
  | f + 1, c :: rest =>
    if pyWs c && (prev == some '.' || prev == some '!' || prev == some '?') then
      cur.reverse :: sentGo (some ' ') [] f (rest.dropWhile pyWs)
    else sentGo (some c) (c :: cur) f rest

/-- Sentence splitting as in `_chunk_by_sentences` (fuel at least the length
always suffices: each step consumes at least one character). -/
def sentSplit (content : PyStr) : List PyStr :=
  sentGo none [] content.length content

/-- The sentence-accumulation loop of `_chunk_by_sentences`: blank sentences
are skipped, the joiner is a single space, and an oversized sentence
escalates to `_chunk_by_words`. -/
def goSent (max : ℕ) (ct : ChunkType) : PyStr → List PyStr → List MessageChunk
  | cur, [] => if cur = [] then [] else [createChunk ct .sentence_boundary cur]
  | cur, u :: us =>
    if pyStrip u = [] then goSent max ct cur us
    else
      let test := if cur = [] then u else cur ++ (' ' :: u)
      if test.length ≤ max then goSent max ct test us
      else
        (if cur = [] then [] else [createChunk ct .sentence_boundary cur]) ++
        (if max < u.length then chunkByWords max ct u ++ goSent max ct [] us
         else goSent max ct u us)

/-- `MessageChunker._chunk_by_sentences`. -/
def chunkBySentences (max : ℕ) (ct : ChunkType) (content : PyStr) :
    List MessageChunk :=
  goSent max ct [] (sentSplit content)

/-- The line-accumulation loop of `_chunk_by_lines`: the joiner is a newline,
no lines are skipped, and an oversized line escalates to words. -/
def goLines (max : ℕ) (ct : ChunkType) : PyStr → List PyStr → List MessageChunk
  | cur, [] => if cur = [] then [] else [createChunk ct .line_boundary cur]
  | cur, u :: us =>
    let test := if cur = [] then u else cur ++ ('\n' :: u)
    if test.length ≤ max then goLines max ct test us
    else
      (if cur = [] then [] else [createChunk ct .line_boundary cur]) ++
      (if max < u.length then chunkByWords max ct u ++ goLines max ct [] us
       else goLines max ct u us)

/-- `MessageChunker._chunk_by_lines`. -/
def chunkByLines (max : ℕ) (ct : ChunkType) (content : PyStr) :
    List MessageChunk :=
  goLines max ct [] (pySplitOn nlS content)

/-- The paragraph-accumulation loop of `_chunk_by_paragraphs`: paragraphs
with empty strip are skipped, the joiner is a blank line, and an oversized
paragraph escalates to `_chunk_by_sentences`. -/
def goParas (max : ℕ) (ct : ChunkType) : PyStr → List PyStr → List MessageChunk
  | cur, [] => if cur = [] then [] else [createChunk ct .paragraph_boundary cur]
  | cur, p :: ps =>
    if pyStrip p = [] then goParas max ct cur ps
    else
      let test := if cur = [] then p else cur ++ nl2 ++ p
      if test.length ≤ max then goParas max ct test ps
      else
        (if cur = [] then [] else [createChunk ct .paragraph_boundary cur]) ++
        (if max < p.length then chunkBySentences max ct p ++ goParas max ct [] ps
         else goParas max ct p ps)

/-- `MessageChunker._chunk_by_paragraphs`. -/
def chunkByParagraphs (max : ℕ) (ct : ChunkType) (content : PyStr) :
    List MessageChunk :=
  goParas max ct [] (pySplitOn nl2 content)

/-! ## Code-block aware splitting -/

/-- The language tag `lines[0][3:].strip()` extracted by
`_chunk_large_code_block` (empty when the block does not begin with a fence). -/
def lcLanguage (code_block : PyStr) : PyStr :=
  match pySplitOn nlS code_block with
  | l0 :: _ => if fenceS.isPrefixOf l0 then pyStrip (l0.drop 3) else []
  | [] => []

/-- The inner lines `'\n'.join(lines[1:-1]).split('\n')` that
`_chunk_large_code_block` re-splits (the whole block when it does not begin
with a fence). -/
def lcCodeLines (code_block : PyStr) : List PyStr :=
  match pySplitOn nlS code_block with
  | l0 :: rest =>
    if fenceS.isPrefixOf l0 then
      pySplitOn nlS (joinSep nlS ((l0 :: rest).drop 1).dropLast)
    else pySplitOn nlS code_block
  | [] => pySplitOn nlS code_block

/-- `f"```{language}\n{content}\n```"`: re-wrap a group of code lines in
fences. -/
def wrapCode (language : PyStr) (ls : List PyStr) : PyStr :=
  fenceS ++ language ++ ('\n' :: joinSep nlS ls) ++ ('\n' :: fenceS)

/-- The line-accumulation loop of `_chunk_large_code_block`: the size test is
on the re-wrapped block. -/
def goLarge (max : ℕ) (language : PyStr) :
    List PyStr → List PyStr → List MessageChunk
  | curLines, [] =>
    if curLines = [] then []
    else [createChunk .code .code_block_boundary (wrapCode language curLines)]
  | curLines, l :: ls =>
    if (wrapCode language (curLines ++ [l])).length ≤ max then
      goLarge max language (curLines ++ [l]) ls
    else
      (if curLines = [] then []
       else [createChunk .code .code_block_boundary (wrapCode language curLines)]) ++
      goLarge max language [l] ls

/-- `MessageChunker._chunk_large_code_block`. -/
def chunkLargeCodeBlock (max : ℕ) (code_block : PyStr) : List MessageChunk :=
  goLarge max (lcLanguage code_block) [] (lcCodeLines code_block)

/-- The alternation of `re.split` text parts and `findall` code blocks walked
by `_chunk_by_code_blocks`, built from the pieces of splitting on three
backticks: pieces at odd positions are (lazily matched) code-block bodies; a
trailing unpaired fence stays inside the final text part. -/
def cbSegments : List PyStr → List (PyStr × Option PyStr)
  | [] => []
  | [x] => [(x, none)]
  | [x, y] => [(x ++ fenceS ++ y, none)]
  | x :: y :: z :: rest => (x, some (fenceS ++ y ++ fenceS)) :: cbSegments (z :: rest)

/-- The main loop of `_chunk_by_code_blocks` over alternating text parts and
code blocks.  A text part is appended or flushed-to (with no oversize check);
a code block is appended, flushed-to, or — when itself oversized — sent to
`_chunk_large_code_block`. -/
def goCB (max : ℕ) (ct : ChunkType) :
    PyStr → List (PyStr × Option PyStr) → List MessageChunk
  | cur, [] => if cur = [] then [] else [createChunk ct .code_block_boundary cur]
  | cur, (t, ob) :: rest =>
    let em1cur1 :=
      if t = [] then (([] : List MessageChunk), cur)
      else if (cur ++ t).length ≤ max then (([] : List MessageChunk), cur ++ t)
      else ((if cur = [] then [] else [createChunk ct .code_block_boundary cur]), t)
    match ob with
    | none => em1cur1.1 ++ goCB max ct em1cur1.2 rest
    | some b =>
      if (em1cur1.2 ++ b).length ≤ max then em1cur1.1 ++ goCB max ct (em1cur1.2 ++ b) rest
      else
        em1cur1.1 ++
        (if em1cur1.2 = [] then []
         else [createChunk ct .code_block_boundary em1cur1.2]) ++
        (if max < b.length then chunkLargeCodeBlock max b ++ goCB max ct [] rest
         else goCB max ct b rest)

/-- `MessageChunker._chunk_by_code_blocks`. -/
def chunkByCodeBlocks (max : ℕ) (ct : ChunkType) (content : PyStr) :
    List MessageChunk :=
  goCB max ct [] (cbSegments (pySplitOn fenceS content))

/-- `MessageChunker._chunk_by_strategy` dispatch. -/
def chunkByStrategy (max : ℕ) (strat : ChunkStrategy) (ct : ChunkType)
    (content : PyStr) : List MessageChunk :=
  match strat with
  | .code_block_boundary => chunkByCodeBlocks max ct content
  | .paragraph_boundary => chunkByParagraphs max ct content
  | .sentence_boundary => chunkBySentences max ct content
  | .line_boundary => chunkByLines max ct content
  | .word_boundary => chunkByWords max ct content
  | .character_boundary => chunkByChars max ct content

/-! ## Metadata pass and the public entry point -/

/-- `MessageChunker._generate_content_preview`. -/
def genPreview (content : PyStr) (max_length : ℕ) : PyStr :=
  let preview := joinSep [' '] (pySplitWs content)
  if max_length < preview.length then preview.take (max_length - 3) ++ ("...").data
  else preview

/-- The continuation marker appended to every chunk but the last. -/
def contMarker : PyStr := ("⬇️ *Continued in next message...*").data

/-- The navigation header for chunk `i` (0-based) of `n`. -/
def navStr (i n : ℕ) : PyStr :=
  ("📄 **Part ").data ++ natStr (i + 1) ++ (" of ").data ++ natStr n ++ ("**").data

/-- The per-chunk update of `_add_chunk_metadata` for absolute position `i`
of `n` chunks. -/
def addMetaOne (cfg : ChunkerCfg) (n : ℕ) (orig : PyStr) (i : ℕ)
    (c : MessageChunk) : MessageChunk :=
  { c with
    metadata :=
      { c.metadata with
        chunk_index := (i : ℤ)
        total_chunks := n
        original_length := orig.length
        continuation_marker :=
          if i + 1 < n then some contMarker else c.metadata.continuation_marker }
    navigation_info :=
      if cfg.add_navigation && decide (1 < n) then some (navStr i n)
      else c.navigation_info
    preview :=
      if i == 0 && cfg.add_previews && decide (1 < n) then
        (let p := genPreview orig 100
         if p ≠ [] then some (("Preview: ").data ++ p ++ ("...").data)
         else c.preview)
      else c.preview }

/-- The `enumerate` loop of `_add_chunk_metadata`. -/
def addMetaGo (cfg : ChunkerCfg) (n : ℕ) (orig : PyStr) :
    ℕ → List MessageChunk → List MessageChunk
  | _, [] => []
  | i, c :: cs => addMetaOne cfg n orig i c :: addMetaGo cfg n orig (i + 1) cs

/-- `MessageChunker._add_chunk_metadata`: fill index/total/original length,
navigation header, continuation markers, and a preview on the first chunk. -/
def addChunkMetadata (cfg : ChunkerCfg) (chunks : List MessageChunk)
    (original : PyStr) : List MessageChunk :=
  addMetaGo cfg chunks.length original 0 chunks

/-- The content type used by `chunk_message`: the caller's hint, or detection
on the original (untitled) content. -/
def effContentType (content0 : PyStr) (content_type : Option ChunkType) :
    ChunkType :=
  match content_type with
  | some t => t
  | none => detectContentType content0

/-- The content actually chunked: `f"**{title}**\n\n{content}"` when a
(truthy, i.e. nonempty) title is provided. -/
def titledContent (content0 : PyStr) (title : Option PyStr) : PyStr :=
  match title with
  | some t => if t = [] then content0 else ("**").data ++ t ++ ("**\n\n").data ++ content0
  | none => content0

/-- The single chunk `chunk_message` returns for content within budget. -/
def singleChunk (ct : ChunkType) (content : PyStr) : MessageChunk :=
  { content := content
    metadata :=
      { chunk_index := 0
        total_chunks := 1
        chunk_type := ct
        strategy_used := .sentence_boundary
        original_length := content.length
        chunk_length := content.length
        has_code := hasCodeBlocks content
        has_markdown := hasMarkdown content
        context_preserved := true } }

/-- `MessageChunker.chunk_message`.  Empty or whitespace-only content gives no
chunks; a provided empty title is falsy in Python and therefore ignored;
content within budget gives one undecorated chunk; otherwise split by the
chosen strategy and run the metadata pass. -/
def chunk_message (cfg : ChunkerCfg) (content0 : PyStr)
    (title : Option PyStr := none) (content_type : Option ChunkType := none) :
    List MessageChunk :=
  if pyStrip content0 = [] then []
  else if (titledContent content0 title).length ≤ cfg.max_chunk_size then
    [singleChunk (effContentType content0 content_type) (titledContent content0 title)]
  else
    addChunkMetadata cfg
      (chunkByStrategy cfg.max_chunk_size
        (chooseStrategy cfg (titledContent content0 title)
          (effContentType content0 content_type))
        (effContentType content0 content_type)
        (titledContent content0 title))
      (titledContent content0 title)

/-- `MessageChunker.create_summary_chunk`. -/
def create_summary_chunk (chunks : List MessageChunk) (original : PyStr) :
    MessageChunk :=
  let statLines : List PyStr :=
    [("📋 **Content Summary**").data, [],
     ("📊 **Statistics:**").data,
     ("• Total length: ").data ++ natStrComma original.length ++ (" characters").data,
     ("• Number of parts: ").data ++ natStr chunks.length,
     ("• Content type: ").data ++
       (match chunks.head? with
        | some c => c.metadata.chunk_type.value
        | none => ("unknown").data),
     []]
  let preview := genPreview original 200
  let previewLines : List PyStr :=
    if preview ≠ [] then
      [("🔍 **Preview:**").data, fenceS ++ ('\n' :: preview) ++ ('\n' :: fenceS), []]
    else []
  let partLines : List PyStr :=
    if 1 < chunks.length then
      (("📄 **Parts:**").data ::
        chunks.mapIdx (fun i c =>
          ("• Part ").data ++ natStr (i + 1) ++ (": ").data ++
          natStrComma c.metadata.chunk_length ++ (" chars (").data ++
          c.metadata.chunk_type.value ++ (")").data)) ++ [[]]
    else []
  let tailLine : PyStr :=
    ("💡 Use the numbered parts below to read the complete content.").data
  let summary := joinSep nlS (statLines ++ previewLines ++ partLines ++ [tailLine])
  { content := summary
    metadata :=
      { chunk_index := -1
        total_chunks := chunks.length + 1
        chunk_type := .mixed
        strategy_used := .sentence_boundary
        original_length := original.length
        chunk_length := summary.length
        has_code := false
        has_markdown := true
        context_preserved := true }
    navigation_info := some (("📋 **SUMMARY** (Read this first)").data) }

/-! ## Rate limiter (`telegram_manager.py`, class `TelegramRateLimiter`)

`time.time()` values are modelled as integers (in any fixed time unit;
machine floats form a discrete set, and none of the verified properties
depends on sub-unit fractions).  The `asyncio.Lock` makes
each `acquire` atomic; the model therefore treats a history of calls as a
list of (non-decreasing) call times. -/

/-- The state of a `TelegramRateLimiter`. -/
structure RateLimiter where
  max_requests : ℕ := 30
  time_window : ℤ := 60
  requests : List ℤ := []
deriving DecidableEq

/-- The pruning step of `acquire`: keep request times strictly inside the
trailing window (`now - req_time < time_window`). -/
def pruneReqs (rl : RateLimiter) (now : ℤ) : List ℤ :=
  rl.requests.filter (fun r => decide (now - r < rl.time_window))

/-- `TelegramRateLimiter.acquire`, with `now = time.time()` passed in. -/
def acquire (rl : RateLimiter) (now : ℤ) : Bool × RateLimiter :=
  let pruned := pruneReqs rl now
  if pruned.length < rl.max_requests then
    (true, { rl with requests := pruned ++ [now] })
  else
    (false, { rl with requests := pruned })

/-- Python `min(list)` on a nonempty list (`0` on the empty list, unused). -/
def pyMinList : List ℤ → ℤ
  | [] => 0
  | x :: xs => xs.foldl min x

/-- `TelegramRateLimiter.get_retry_after`, with `now = time.time()` passed
in.  Python applies `int()` (truncation) to the float difference; on the
integer time model that truncation is the identity. -/
def get_retry_after (rl : RateLimiter) (now : ℤ) : ℤ :=
  if rl.requests = [] then 0
  else max 0 (rl.time_window - (now - pyMinList rl.requests))

/-- Run a history of `acquire` calls from a state, returning the final state
and the per-call `(time, admitted)` log. -/
def runAcq (rl : RateLimiter) : List ℤ → RateLimiter × List (ℤ × Bool)
  | [] => (rl, [])
  | t :: ts =>
    let step := acquire rl t
    let rest := runAcq step.2 ts
    (rest.1, (t, step.1) :: rest.2)

/-- The admitted times of a call log, in call order. -/
def admittedTimes (log : List (ℤ × Bool)) : List ℤ :=
  (log.filter (fun p => p.2)).map (fun p => p.1)

/-! ## Bridge (`mcp_telegram_bridge.py`, class `MCPTelegramBridge`)

Python `dict`s preserve insertion order; assignment to an existing key keeps
its position.  They are modelled as association lists with that update
discipline.  `datetime.now()` values are modelled as integers like
`time.time()` above. -/

/-- Ordered-dict lookup. -/
def dictLookup (m : List (String × α)) (k : String) : Option α :=
  (m.find? (fun p => p.1 == k)).map (fun p => p.2)

/-- Ordered-dict assignment: replace in place, or append a new binding. -/
def dictSet (m : List (String × α)) (k : String) (v : α) : List (String × α) :=
  if m.any (fun p => p.1 == k) then
    m.map (fun p => if p.1 == k then (k, v) else p)
  else m ++ [(k, v)]

/-- `TelegramSession` dataclass (times as rationals; the `pending_responses`
and `user_context` payloads are opaque string maps here). -/
structure TelegramSession where
  session_id : String
  chat_id : String
  project_directory : String
  start_time : ℤ
  last_activity : ℤ
  active_mcp_calls : List String
  pending_responses : List (String × String)
  user_context : List (String × String)
deriving DecidableEq

/-- The feedback record built by `handle_telegram_response` and stored in
`pending_feedback`. -/
structure FeedbackData where
  interactive_feedback : String
  telegram_message_id : ℕ
  timestamp : ℤ
  mcp_call_id : Option String
  user_id : ℕ
deriving DecidableEq

/-- The mutable state of an `MCPTelegramBridge` relevant to session,
correlation and feedback handling, plus its configuration. -/
structure Bridge where
  active_sessions : List (String × TelegramSession) := []
  message_correlation : List (String × String) := []
  pending_feedback : List (String × FeedbackData) := []
  session_timeout_minutes : ℕ := 30
  max_concurrent_sessions : ℕ := 10
  chunker : ChunkerCfg := {}
deriving DecidableEq

/-- `MCPTelegramBridge.create_session`, with `now = datetime.now()` passed
in.  The only admission check is the concurrent-session cap; an existing
`session_id` is silently overwritten by the dict assignment. -/
def create_session (b : Bridge) (session_id chat_id project_directory : String)
    (user_context : List (String × String)) (now : ℤ) : Bool × Bridge :=
  if b.max_concurrent_sessions ≤ b.active_sessions.length then (false, b)
  else
    (true,
     { b with
       active_sessions :=
         dictSet b.active_sessions session_id
           { session_id := session_id
             chat_id := chat_id
             project_directory := project_directory
             start_time := now
             last_activity := now
             active_mcp_calls := []
             pending_responses := []
             user_context := user_context } })

/-- Python `set.add` on a set modelled as a duplicate-free list. -/
def setAdd (l : List String) (x : String) : List String :=
  if l.any (fun y => y == x) then l else l ++ [x]

/-- An inbound Telegram message as consumed by `handle_telegram_response`:
`str(chat.id)`, `text`, `message_id`, the optional `reply_to_message`
message id, and `from.id`. -/
structure TgInMessage where
  chat_id : String
  text : String
  message_id : ℕ
  reply_to : Option ℕ
  from_id : ℕ
deriving DecidableEq

/-- The correlation lookup inside `handle_telegram_response`:
`self.message_correlation.get(str(reply_to_message_id))` guarded by the
truthiness of `reply_to_message_id` (id `0` is falsy). -/
def resolveCallId (corr : List (String × String)) (reply_to : Option ℕ) :
    Option String :=
  match reply_to with
  | none => none
  | some r => if r = 0 then none else dictLookup corr (toString r)

/-- The `feedback_data` dict built by `handle_telegram_response`. -/
def mkFeedback (b : Bridge) (m : TgInMessage) (now : ℤ) : FeedbackData :=
  { interactive_feedback := m.text
    telegram_message_id := m.message_id
    timestamp := now
    mcp_call_id := resolveCallId b.message_correlation m.reply_to
    user_id := m.from_id }

/-- The session scan of `handle_telegram_response`: the first session (in
dict insertion order) whose `chat_id` matches. -/
def findSessionByChat (sessions : List (String × TelegramSession))
    (chat : String) : Option (String × TelegramSession) :=
  sessions.find? (fun p => p.2.chat_id == chat)

/-- `MCPTelegramBridge.handle_telegram_response`, with
`now = datetime.now()` passed in. -/
def handle_telegram_response (b : Bridge) (m : TgInMessage) (now : ℤ) :
    Bool × Bridge :=
  match findSessionByChat b.active_sessions m.chat_id with
  | none => (false, b)
  | some sidSess =>
    (true,
     { b with
       pending_feedback := dictSet b.pending_feedback sidSess.1 (mkFeedback b m now)
       active_sessions :=
         dictSet b.active_sessions sidSess.1
           { sidSess.2 with last_activity := now } })

/-- `MCPTelegramBridge.get_pending_feedback`. -/
def get_pending_feedback (b : Bridge) (session_id : String) :
    Option FeedbackData :=
  dictLookup b.pending_feedback session_id

/-- `MCPTelegramBridge.clear_pending_feedback` (`dict.pop(·, None)`). -/
def clear_pending_feedback (b : Bridge) (session_id : String) : Bridge :=
  { b with pending_feedback :=
      b.pending_feedback.filter (fun p => !(p.1 == session_id)) }

/-- The chunk list assembled by `send_mcp_message_to_telegram`: the
`chunk_message` output, with a summary chunk prepended when there are more
than three chunks. -/
def outgoingChunks (cfg : ChunkerCfg) (message : PyStr) : List MessageChunk :=
  let chunks := chunk_message cfg message none none
  if 3 < chunks.length then create_summary_chunk chunks message :: chunks
  else chunks

/-- The send loop of `send_mcp_message_to_telegram`.  The transport outcome
of each attempted `send_message` is supplied as a list of `Option ℕ`
(message id or failure); a failure (or exhaustion of the outcome list)
breaks the loop.  For each successfully sent chunk `i` a correlation entry
`str(msg_id) -> f"{mcp_call_id}_chunk_{i}"` is recorded and the chunk call
id is added to the session's `active_mcp_calls`.  Returns the collected
telegram message ids, the final correlation map and the final call-id set. -/
def sendGo (corr : List (String × String)) (calls : List String)
    (callId : String) (i : ℕ) :
    List MessageChunk → List (Option ℕ) →
    List ℕ × List (String × String) × List String
  | [], _ => ([], corr, calls)
  | _ :: _, [] => ([], corr, calls)
  | _ :: cs, r :: rs =>
    match r with
    | none => ([], corr, calls)
    | some msgId =>
      let chunkCallId := callId ++ "_chunk_" ++ toString i
      let step := sendGo (dictSet corr (toString msgId) chunkCallId)
        (setAdd calls chunkCallId) callId (i + 1) cs rs
      (msgId :: step.1, step.2)

/-- `MCPTelegramBridge.send_mcp_message_to_telegram`, with transport
outcomes and `now` passed in.  Returns `none` when the session is unknown or
no chunk was sent; correlation entries and call ids recorded before a
mid-message failure are kept (at-least-once delivery), and the session
activity is refreshed only when at least one chunk was sent. -/
def send_mcp_message_to_telegram (b : Bridge) (session_id mcp_call_id : String)
    (message : PyStr) (results : List (Option ℕ)) (now : ℤ) :
    Option (List ℕ) × Bridge :=
  match dictLookup b.active_sessions session_id with
  | none => (none, b)
  | some sess =>
    let chunks := outgoingChunks b.chunker message
    let sent := sendGo b.message_correlation sess.active_mcp_calls mcp_call_id 0
      chunks results
    let sess1 :=
      { sess with
        active_mcp_calls := sent.2.2
        last_activity := if sent.1 = [] then sess.last_activity else now }
    let b1 :=
      { b with
        message_correlation := sent.2.1
        active_sessions := dictSet b.active_sessions session_id sess1 }
    (if sent.1 = [] then none else some sent.1, b1)

/-! ## Test fixtures and derived definitions -/

/-- A fresh rate limiter with the given configuration. -/
def mkRL (R : ℕ) (W : ℤ) : RateLimiter :=
  { max_requests := R, time_window := W, requests := [] }

/-- The spec-side reading of C7 (for the counterexample): the non-empty lines
of a text, as the spec's "more than half of non-empty lines" counts them. -/
def specNonEmptyLines (content : PyStr) : List PyStr :=
  (pySplitOn nlS content).filter (fun l => decide (l ≠ []))

/-- A sample session bound to chat `c` (test fixture). -/
def sessFix : TelegramSession :=
  { session_id := ("s"), chat_id := ("c"), project_directory := ("p")
    start_time := 0, last_activity := 0, active_mcp_calls := []
    pending_responses := [], user_context := [] }

/-- A sample bridge holding `sessFix` and a stale pending feedback record
(test fixture). -/
def bridgeFix : Bridge :=
  { active_sessions := [(("s"), sessFix)]
    pending_feedback :=
      [(("s"),
        { interactive_feedback := ("old"), telegram_message_id := 1
          timestamp := 0, mcp_call_id := none, user_id := 9 })] }

/-- A sample inbound Telegram message for chat `c` (test fixture). -/
def msgFix : TgInMessage :=
  { chat_id := ("c"), text := ("new reply"), message_id := 2
    reply_to := none, from_id := 9 }

set_option maxRecDepth 8000

/-! ## Splitting and joining lemmas -/

/-- `joinSep` on a cons. -/
theorem joinSep_cons_eq (sep p : PyStr) (ps : List PyStr) :
    joinSep sep (p :: ps) = if ps = [] then p else p ++ sep ++ joinSep sep ps := by
  cases ps <;> simp [joinSep]

/-- `joinSep` on a cons with a nonempty tail. -/
theorem joinSep_cons_of_ne (sep p : PyStr) (ps : List PyStr) (h : ps ≠ []) :
    joinSep sep (p :: ps) = p ++ sep ++ joinSep sep ps := by
  rw [joinSep_cons_eq, if_neg h]

/-- `splitOnGo` always returns at least one piece. -/
theorem splitOnGo_ne_nil (c : Char) (cs : PyStr) (f : ℕ) (s : PyStr) :
    splitOnGo c cs f s ≠ [] := by
  match f, s with
  | f, [] => simp [splitOnGo]
  | 0, d :: s => simp [splitOnGo]
  | f + 1, d :: s =>
    simp only [splitOnGo]
    split
    · simp
    · split <;> simp

/-- `pySplitOn` always returns at least one piece. -/
theorem pySplitOn_ne_nil (sep s : PyStr) : pySplitOn sep s ≠ [] := by
  cases sep with
  | nil => simp [pySplitOn]
  | cons c cs => exact splitOnGo_ne_nil c cs s.length s

/-- Joining the pieces of `splitOnGo` with the separator restores the input
whenever the fuel covers the input length. -/
theorem joinSep_splitOnGo (c : Char) (cs : PyStr) :
    ∀ (f : ℕ) (s : PyStr), s.length ≤ f →
      joinSep (c :: cs) (splitOnGo c cs f s) = s := by
  intro f
  induction f with
  | zero =>
    intro s hs
    have hnil : s = [] := List.eq_nil_of_length_eq_zero (Nat.le_zero.mp hs)
    subst hnil
    simp [splitOnGo, joinSep]
  | succ f ih =>
    intro s hs
    match s with
    | [] => simp [splitOnGo, joinSep]
    | d :: s =>
      simp only [splitOnGo]
      by_cases hp : (c :: cs).isPrefixOf (d :: s)
      · rw [if_pos hp]
        obtain ⟨t, ht⟩ := List.isPrefixOf_iff_prefix.mp hp
        have hd : (d :: s).drop (cs.length + 1) = t := by
          rw [← ht]
          have hlen : cs.length + 1 = (c :: cs).length := by simp
          rw [hlen, List.drop_left]
        rw [hd, joinSep_cons_eq, if_neg (splitOnGo_ne_nil c cs f t)]
        have htl : t.length ≤ f := by
          have := congrArg List.length ht
          simp at this
          simp at hs
          omega
        rw [List.nil_append, ih t htl]
        exact ht
      · rw [if_neg hp]
        rcases hsp : splitOnGo c cs f s with _ | ⟨p, ps⟩
        · exact absurd hsp (splitOnGo_ne_nil c cs f s)
        · have hr := ih s (Nat.le_of_succ_le_succ (by simpa using hs))
          rw [hsp] at hr
          cases ps with
          | nil =>
            simp only [joinSep] at hr ⊢
            rw [hr]
          | cons q qs =>
            simp only [joinSep] at hr ⊢
            rw [List.cons_append, List.cons_append, hr]

/-- Joining the pieces of `pySplitOn` with the (nonempty) separator restores
the input: `sep.join(s.split(sep)) == s`. -/
theorem joinSep_pySplitOn (c : Char) (cs s : PyStr) :
    joinSep (c :: cs) (pySplitOn (c :: cs) s) = s :=
  joinSep_splitOnGo c cs s.length s (le_refl _)

/-! ## Association-list (ordered dict) lemmas -/

/-- A key is absent iff lookup fails. -/
theorem dictLookup_eq_none_iff (m : List (String × α)) (k : String) :
    dictLookup m k = none ↔ m.any (fun p => p.1 == k) = false := by
  simp [dictLookup, List.find?_eq_none, List.any_eq_false]

/-- Replacing the binding of `k` in place makes `find?` on `k` return it. -/
theorem find_replace_self (k : String) (v : α) (m : List (String × α))
    (h : m.any (fun p => p.1 == k) = true) :
    (m.map (fun p => if p.1 == k then (k, v) else p)).find?
      (fun p => p.1 == k) = some (k, v) := by
  induction m with
  | nil => simp at h
  | cons a ps ih =>
    simp only [List.map_cons]
    cases hb : (a.1 == k) with
    | true =>
      rw [if_pos rfl]
      exact @List.find?_cons_of_pos _ (fun p => p.1 == k) (k, v) _ (by simp)
    | false =>
      rw [if_neg (by simp)]
      rw [@List.find?_cons_of_neg _ (fun p => p.1 == k) a _ (by simp [hb])]
      apply ih
      rw [List.any_cons, hb, Bool.false_or] at h
      exact h

/-- Appending a fresh binding of `k` makes `find?` on `k` return it. -/
theorem find_append_self (k : String) (v : α) (m : List (String × α))
    (h : m.any (fun p => p.1 == k) = false) :
    (m ++ [(k, v)]).find? (fun p => p.1 == k) = some (k, v) := by
  induction m with
  | nil =>
    rw [List.nil_append]
    exact @List.find?_cons_of_pos _ (fun p => p.1 == k) (k, v) _ (by simp)
  | cons a ps ih =>
    rw [List.any_cons, Bool.or_eq_false_iff] at h
    rw [List.cons_append]
    rw [@List.find?_cons_of_neg _ (fun p => p.1 == k) a _ (by simp [h.1])]
    exact ih h.2

/-- Looking up the key just set returns the value just set. -/
theorem dictLookup_dictSet_self (m : List (String × α)) (k : String) (v : α) :
    dictLookup (dictSet m k v) k = some v := by
  unfold dictSet
  split
  case isTrue h => rw [dictLookup, find_replace_self k v m h]; rfl
  case isFalse h =>
    rw [dictLookup, find_append_self k v m (eq_false_of_ne_true h)]; rfl

/-- Replacing the binding of `k` in place leaves `find?` on `k' ≠ k`
unchanged. -/
theorem find_replace_ne (k k' : String) (v : α) (hne : k' ≠ k)
    (m : List (String × α)) :
    (m.map (fun p => if p.1 == k then (k, v) else p)).find?
      (fun p => p.1 == k') = m.find? (fun p => p.1 == k') := by
  induction m with
  | nil => simp
  | cons a ps ih =>
    simp only [List.map_cons]
    cases hb : (a.1 == k) with
    | true =>
      have hak : a.1 = k := by simpa using hb
      have h1 : ¬ (((k, v) : String × α).1 == k') = true := by
        simp only [beq_iff_eq]
        exact fun h => hne h.symm
      have h2 : ¬ (a.1 == k') = true := by
        simp only [hak, beq_iff_eq]
        exact fun h => hne h.symm
      rw [if_pos rfl]
      rw [@List.find?_cons_of_neg _ (fun p => p.1 == k') ((k, v)) _ h1]
      rw [@List.find?_cons_of_neg _ (fun p => p.1 == k') a _ h2]
      exact ih
    | false =>
      rw [if_neg (by simp)]
      cases hq : (a.1 == k') with
      | true =>
        rw [@List.find?_cons_of_pos _ (fun p => p.1 == k') a _ hq]
        rw [@List.find?_cons_of_pos _ (fun p => p.1 == k') a ps hq]
      | false =>
        rw [@List.find?_cons_of_neg _ (fun p => p.1 == k') a _ (by simp [hq])]
        rw [@List.find?_cons_of_neg _ (fun p => p.1 == k') a _ (by simp [hq])]
        exact ih

/-- Appending a binding of `k` leaves `find?` on `k' ≠ k` unchanged. -/
theorem find_append_ne (k k' : String) (v : α) (hne : k' ≠ k)
    (m : List (String × α)) :
    (m ++ [(k, v)]).find? (fun p => p.1 == k') = m.find? (fun p => p.1 == k') := by
  induction m with
  | nil =>
    rw [List.nil_append]
    rw [@List.find?_cons_of_neg _ (fun p => p.1 == k') ((k, v)) _
      (by simp only [beq_iff_eq]; exact fun h => hne h.symm)]
  | cons a ps ih =>
    rw [List.cons_append]
    cases hq : (a.1 == k') with
    | true =>
      rw [@List.find?_cons_of_pos _ (fun p => p.1 == k') a _ hq]
      rw [@List.find?_cons_of_pos _ (fun p => p.1 == k') a ps hq]
    | false =>
      rw [@List.find?_cons_of_neg _ (fun p => p.1 == k') a _ (by simp [hq])]
      rw [@List.find?_cons_of_neg _ (fun p => p.1 == k') a _ (by simp [hq])]
      exact ih

/-- Setting one key leaves lookups of other keys unchanged. -/
theorem dictLookup_dictSet_ne (m : List (String × α)) (k k' : String) (v : α)
    (hne : k' ≠ k) : dictLookup (dictSet m k v) k' = dictLookup m k' := by
  unfold dictSet
  split
  · rw [dictLookup, dictLookup, find_replace_ne k k' v hne m]
  · rw [dictLookup, dictLookup, find_append_ne k k' v hne m]

/-- Setting an absent key grows the dict by one binding. -/
theorem length_dictSet_fresh (m : List (String × α)) (k : String) (v : α)
    (h : m.any (fun p => p.1 == k) = false) :
    (dictSet m k v).length = m.length + 1 := by
  unfold dictSet
  simp [h]

/-- In-place replacement of the binding of `k` leaves `any` on `k' ≠ k`
unchanged. -/
theorem any_map_replace (k k' : String) (v : α)
    (m : List (String × α)) :
    (m.map (fun p => if p.1 == k then (k, v) else p)).any
      (fun p => p.1 == k') = m.any (fun p => p.1 == k') := by
  induction m with
  | nil => simp
  | cons a ps ih =>
    simp only [List.map_cons, List.any_cons]
    cases hb : (a.1 == k) with
    | true =>
      have hak : a.1 = k := by simpa using hb
      rw [if_pos rfl, ih]
      simp [hak]
    | false => rw [if_neg (by simp), ih]

/-- Setting one key does not make another key appear or disappear. -/
theorem any_dictSet_ne (m : List (String × α)) (k k' : String) (v : α)
    (hne : k' ≠ k) :
    (dictSet m k v).any (fun p => p.1 == k') = m.any (fun p => p.1 == k') := by
  unfold dictSet
  split
  · exact any_map_replace k k' v m
  · rw [List.any_append]
    have h1 : [((k, v) : String × α)].any (fun p => p.1 == k') = false := by
      simp only [List.any_cons, List.any_nil, Bool.or_false, beq_eq_false_iff_ne]
      exact fun h => hne h.symm
    rw [h1, Bool.or_false]

/-! ## Claim C9 -/

/-- C9: for every chunker configuration, title and content-type hint,
`chunk_message` returns no chunks whenever the content is empty or consists
only of whitespace (Python: `if not content or not content.strip(): return
[]`; an empty string also has empty strip). -/
theorem C9_chunk_message_blank (cfg : ChunkerCfg) (content : PyStr)
    (title : Option PyStr) (ctype : Option ChunkType)
    (h : pyStrip content = []) :
    chunk_message cfg content title ctype = [] := by
  simp [chunk_message, h]

/-- C9 witness: whitespace-only content with a title still gives no chunks. -/
theorem C9_witness :
    pyStrip (("  \n\t ").data) = [] ∧
    chunk_message { max_chunk_size := 5 } (("  \n\t ").data)
      (some (("Title").data)) none = [] :=
  ⟨by decide, C9_chunk_message_blank _ _ _ _ (by decide)⟩

/-! ## Claim C5 -/

/-- C5 counterexample: the claim says `create_session` returns false and
leaves state unchanged whenever the session id already exists, but
`MCPTelegramBridge.create_session` never checks for an existing id: with the
cap not reached and the id `s` already present, the call returns `true` and
overwrites the session. -/
theorem C5_counterexample :
    let b : Bridge :=
      { active_sessions :=
          [(("s"),
            { session_id := ("s"), chat_id := ("c"), project_directory := ("p")
              start_time := 0, last_activity := 0, active_mcp_calls := []
              pending_responses := [], user_context := [] })] }
    dictLookup b.active_sessions ("s") ≠ none ∧
    b.active_sessions.length < b.max_concurrent_sessions ∧
    (create_session b ("s") ("c2") ("p2") [] 5).1 = true ∧
    (create_session b ("s") ("c2") ("p2") [] 5).2 ≠ b := by
  decide

/-- C5 amended: `create_session` fails and leaves the bridge unchanged only
when the concurrent-session cap is reached; otherwise it returns true and
stores (inserting, or overwriting an existing id) a session whose creation
time equals its last-activity time, both set to now. -/
theorem C5_create_session (b : Bridge) (sid cid pd : String)
    (uc : List (String × String)) (now : ℤ) :
    (b.max_concurrent_sessions ≤ b.active_sessions.length →
      create_session b sid cid pd uc now = (false, b)) ∧
    (b.active_sessions.length < b.max_concurrent_sessions →
      (create_session b sid cid pd uc now).1 = true ∧
      dictLookup (create_session b sid cid pd uc now).2.active_sessions sid =
        some { session_id := sid, chat_id := cid, project_directory := pd
               start_time := now, last_activity := now, active_mcp_calls := []
               pending_responses := [], user_context := uc }) := by
  constructor
  · intro h
    simp [create_session, h]
  · intro h
    have h2 : ¬ (b.max_concurrent_sessions ≤ b.active_sessions.length) := by omega
    refine ⟨by simp [create_session, h2], ?_⟩
    simp only [create_session, h2, if_false]
    exact dictLookup_dictSet_self _ _ _

/-- C5 witness: creating a session below the cap on an empty bridge stores it
with equal creation and last-activity times. -/
theorem C5_witness :
    (Bridge.active_sessions {}).length < (Bridge.max_concurrent_sessions {}) ∧
    ((create_session {} ("s") ("c") ("p") [] 7).1 = true ∧
      dictLookup (create_session {} ("s") ("c") ("p") [] 7).2.active_sessions ("s") =
        some { session_id := ("s"), chat_id := ("c"), project_directory := ("p")
               start_time := 7, last_activity := 7, active_mcp_calls := []
               pending_responses := [], user_context := [] }) :=
  ⟨by decide, (C5_create_session {} ("s") ("c") ("p") [] 7).2 (by decide)⟩

/-! ## Claim C10 -/

/-- C10: `handle_telegram_response` stores the inbound reply under the
matched session id, overwriting whatever pending feedback that session had
(each session holds at most one pending record), and leaves every other
session's pending feedback untouched; `get_pending_feedback` therefore
returns exactly the most recently handled reply. -/
theorem C10_pending_overwrite (b : Bridge) (m : TgInMessage) (now : ℤ)
    (sid : String) (sess : TelegramSession)
    (h : findSessionByChat b.active_sessions m.chat_id = some (sid, sess)) :
    get_pending_feedback (handle_telegram_response b m now).2 sid =
      some (mkFeedback b m now) ∧
    (∀ sid2, sid2 ≠ sid →
      get_pending_feedback (handle_telegram_response b m now).2 sid2 =
        get_pending_feedback b sid2) := by
  constructor
  · simp only [handle_telegram_response, h, get_pending_feedback]
    exact dictLookup_dictSet_self _ _ _
  · intro sid2 hne
    simp only [handle_telegram_response, h, get_pending_feedback]
    exact dictLookup_dictSet_ne _ _ _ _ hne

/-- C10 witness: with one matching session holding stale feedback, handling a
new reply overwrites it and leaves an unrelated session id unchanged. -/
theorem C10_witness :
    findSessionByChat bridgeFix.active_sessions msgFix.chat_id =
      some ((("s") : String), sessFix) ∧
    (get_pending_feedback (handle_telegram_response bridgeFix msgFix 3).2 ("s") =
       some (mkFeedback bridgeFix msgFix 3) ∧
     (∀ sid2, sid2 ≠ ("s") →
       get_pending_feedback (handle_telegram_response bridgeFix msgFix 3).2 sid2 =
         get_pending_feedback bridgeFix sid2)) :=
  ⟨by decide, C10_pending_overwrite bridgeFix msgFix 3 ("s") sessFix (by decide)⟩

/-! ## Claim C4 -/

/-- C4: `get_retry_after` returns 0 when no timestamps are tracked, and
otherwise the (floored, clamped-at-zero) time remaining until the oldest
tracked timestamp leaves the window; and in the concrete scenario of 31
`acquire()` calls within 10 seconds (all at time 0) with `max_requests = 30`
and `time_window = 60`, the 31st call is denied and `get_retry_after` is
positive and at most 60. -/
theorem C4_get_retry_after (rl : RateLimiter) (now : ℤ) :
    (rl.requests = [] → get_retry_after rl now = 0) ∧
    (rl.requests ≠ [] →
      get_retry_after rl now =
        max 0 ((pyMinList rl.requests + rl.time_window) - now)) ∧
    ((runAcq { max_requests := 30, time_window := 60, requests := [] }
        (List.replicate 31 (0 : ℤ))).2.getLast? = some (0, false) ∧
     0 < get_retry_after
        (runAcq { max_requests := 30, time_window := 60, requests := [] }
          (List.replicate 31 (0 : ℤ))).1 0 ∧
     get_retry_after
        (runAcq { max_requests := 30, time_window := 60, requests := [] }
          (List.replicate 31 (0 : ℤ))).1 0 ≤ 60) := by
  refine ⟨fun h => by simp [get_retry_after, h], fun h => ?_, by decide⟩
  rw [get_retry_after, if_neg h]
  have : rl.time_window - (now - pyMinList rl.requests) =
      pyMinList rl.requests + rl.time_window - now := by ring
  rw [this]

/-- C4 witness: one tracked timestamp 5 with window 60 at time 10 gives the
55 seconds until the timestamp leaves the window. -/
theorem C4_witness :
    (RateLimiter.requests { requests := [(5 : ℤ)] } ≠ []) ∧
    get_retry_after { requests := [(5 : ℤ)] } 10 =
      max 0 ((pyMinList [(5 : ℤ)] + (60 : ℤ)) - 10) :=
  ⟨by decide, (C4_get_retry_after { requests := [(5 : ℤ)] } 10).2.1 (by decide)⟩

/-! ## Claim C7 -/

/-- C7 counterexample: the text consisting of one bullet line followed by
four empty lines has no code fence, is not JSON, and all (one) of its
non-empty lines are bullet lines — yet `_detect_content_type` divides by the
count of all lines including the empty ones (1 of 5), so it returns Text,
not List, contradicting the claim as stated. -/
theorem C7_counterexample :
    hasFencePair (("- a\n\n\n\n").data) = false ∧
    (startsEndsBrace (pyStrip (("- a\n\n\n\n").data)) &&
      jsonLoadsOk (pyStrip (("- a\n\n\n\n").data))) = false ∧
    (specNonEmptyLines (("- a\n\n\n\n").data)).length <
      2 * ((specNonEmptyLines (("- a\n\n\n\n").data)).filter isListLine).length ∧
    detectContentType (("- a\n\n\n\n").data) = ChunkType.text := by
  decide

/-- C7 amended: with no fenced-code marker pair and the JSON branch not
taken, content-type detection returns List when more than half of all lines
(split on newline, empty lines included) match the bullet pattern. -/
theorem C7_detect_list (content : PyStr)
    (h1 : hasFencePair content = false)
    (h2 : (startsEndsBrace (pyStrip content) && jsonLoadsOk (pyStrip content)) = false)
    (h3 : (pySplitOn nlS content).length <
      2 * ((pySplitOn nlS content).filter isListLine).length) :
    detectContentType content = ChunkType.list := by
  rw [detectContentType, if_neg (by simp [h1])]
  simp only [h2, Bool.false_eq_true, if_false]
  rw [if_pos (by simpa using h3)]

/-- C7 witness: two bullet lines out of three total lines trigger List
detection. -/
theorem C7_witness :
    hasFencePair (("- a\n- b\nc").data) = false ∧
    (startsEndsBrace (pyStrip (("- a\n- b\nc").data)) &&
      jsonLoadsOk (pyStrip (("- a\n- b\nc").data))) = false ∧
    (pySplitOn nlS (("- a\n- b\nc").data)).length <
      2 * ((pySplitOn nlS (("- a\n- b\nc").data)).filter isListLine).length ∧
    detectContentType (("- a\n- b\nc").data) = ChunkType.list :=
  ⟨by decide, by decide, by decide,
    C7_detect_list _ (by decide) (by decide) (by decide)⟩

/-! ## Claim C6 -/

/-- The accumulation loop of `_chunk_large_code_block` partitions the code
lines it is fed into contiguous nonempty groups and emits exactly one
re-fenced chunk per group. -/
theorem goLarge_group (max : ℕ) (language : PyStr) :
    ∀ (ls cur : List PyStr), ∃ gs : List (List PyStr),
      (∀ g ∈ gs, g ≠ []) ∧ gs.flatten = cur ++ ls ∧
      goLarge max language cur ls =
        gs.map (fun g => createChunk .code .code_block_boundary (wrapCode language g)) := by
  intro ls
  induction ls with
  | nil =>
    intro cur
    by_cases hc : cur = []
    · exact ⟨[], by simp, by simp [hc], by simp [goLarge, hc]⟩
    · exact ⟨[cur], by simp [hc], by simp, by simp [goLarge, hc]⟩
  | cons l ls ih =>
    intro cur
    by_cases hfit : (wrapCode language (cur ++ [l])).length ≤ max
    · obtain ⟨gs, hne, hjoin, heq⟩ := ih (cur ++ [l])
      refine ⟨gs, hne, ?_, ?_⟩
      · rw [hjoin]; simp
      · rw [goLarge, if_pos hfit]; exact heq
    · obtain ⟨gs, hne, hjoin, heq⟩ := ih [l]
      by_cases hc : cur = []
      · refine ⟨gs, hne, ?_, ?_⟩
        · rw [hjoin, hc]; simp
        · rw [goLarge, if_neg hfit, heq, hc]; simp
      · refine ⟨cur :: gs, ?_, ?_, ?_⟩
        · intro g hg
          rcases List.mem_cons.mp hg with h | h
          · exact h ▸ hc
          · exact hne g h
        · rw [List.flatten_cons, hjoin]; simp
        · rw [goLarge, if_neg hfit, heq]
          simp [hc]

/-- C6: when `preserve_code_blocks` is set and a single fenced code block
alone exceeds the budget, `_chunk_by_code_blocks` hands the whole block to
`_chunk_large_code_block`, which splits it only along its internal lines —
the emitted chunks are precisely the fenced re-wrappings of a partition of
the block's internal lines into contiguous nonempty groups, so every chunk
starts with an opening fence carrying the original language tag and ends
with a closing fence. -/
theorem C6_code_atomicity (max : ℕ) (ct : ChunkType) (block inner : PyStr)
    (hsplit : pySplitOn fenceS block = [([] : PyStr), inner, []])
    (hbig : max < block.length) :
    chunkByCodeBlocks max ct block = chunkLargeCodeBlock max block ∧
    ∃ gs : List (List PyStr),
      (∀ g ∈ gs, g ≠ []) ∧
      gs.flatten = lcCodeLines block ∧
      chunkLargeCodeBlock max block =
        gs.map (fun g =>
          createChunk .code .code_block_boundary (wrapCode (lcLanguage block) g)) ∧
      ∀ ch ∈ chunkLargeCodeBlock max block,
        (fenceS ++ lcLanguage block).isPrefixOf ch.content ∧
        ('\n' :: fenceS).isSuffixOf ch.content := by
  have hblock : fenceS ++ inner ++ fenceS = block := by
    have h := joinSep_pySplitOn btick [btick, btick] block
    rw [show (btick :: [btick, btick]) = fenceS from rfl, hsplit] at h
    simpa [joinSep, fenceS, List.append_assoc] using h
  constructor
  · rw [chunkByCodeBlocks, hsplit]
    show goCB max ct []
      [(([] : PyStr), some (fenceS ++ inner ++ fenceS)), (([] : PyStr), none)] =
        chunkLargeCodeBlock max block
    rw [hblock]
    have hgt : ¬ (block.length ≤ max) := by omega
    simp only [goCB]
    simp [hgt, hbig]
  · obtain ⟨gs, hne, hjoin, heq⟩ :=
      goLarge_group max (lcLanguage block) (lcCodeLines block) []
    refine ⟨gs, hne, by simpa using hjoin, by rw [chunkLargeCodeBlock]; exact heq, ?_⟩
    intro ch hch
    rw [chunkLargeCodeBlock, heq] at hch
    obtain ⟨g, _, hg⟩ := List.mem_map.mp hch
    constructor
    · rw [← hg]
      show (fenceS ++ lcLanguage block).isPrefixOf (wrapCode (lcLanguage block) g)
      rw [List.isPrefixOf_iff_prefix, wrapCode, List.append_assoc]
      exact ⟨_, rfl⟩
    · rw [← hg]
      show ('\n' :: fenceS).isSuffixOf (wrapCode (lcLanguage block) g)
      rw [List.isSuffixOf_iff_suffix, wrapCode]
      exact ⟨_, rfl⟩

/-- C6 witness: a 19-character fenced `py` block with budget 12 is split into
independently fenced sub-chunks. -/
theorem C6_witness :
    pySplitOn fenceS (("```py\nab\ncd\nef\n```").data) =
      [([] : PyStr), ("py\nab\ncd\nef\n").data, []] ∧
    12 < (("```py\nab\ncd\nef\n```").data).length ∧
    (chunkByCodeBlocks 12 ChunkType.code (("```py\nab\ncd\nef\n```").data) =
      chunkLargeCodeBlock 12 (("```py\nab\ncd\nef\n```").data) ∧
     ∃ gs : List (List PyStr),
      (∀ g ∈ gs, g ≠ []) ∧
      gs.flatten = lcCodeLines (("```py\nab\ncd\nef\n```").data) ∧
      chunkLargeCodeBlock 12 (("```py\nab\ncd\nef\n```").data) =
        gs.map (fun g =>
          createChunk .code .code_block_boundary
            (wrapCode (lcLanguage (("```py\nab\ncd\nef\n```").data)) g)) ∧
      ∀ ch ∈ chunkLargeCodeBlock 12 (("```py\nab\ncd\nef\n```").data),
        (fenceS ++ lcLanguage (("```py\nab\ncd\nef\n```").data)).isPrefixOf ch.content ∧
        ('\n' :: fenceS).isSuffixOf ch.content) :=
  ⟨by decide, by decide,
    C6_code_atomicity 12 ChunkType.code _ (("py\nab\ncd\nef\n").data)
      (by decide) (by decide)⟩

/-! ## Claim C2: per-strategy size bounds on raw chunk contents -/

/-- Members of a flush-if-nonempty singleton are that chunk. -/
theorem mem_flush {ct : ChunkType} {strat : ChunkStrategy} {cur : PyStr}
    {c : MessageChunk}
    (hc : c ∈ (if cur = ([] : PyStr) then ([] : List MessageChunk)
               else [createChunk ct strat cur])) :
    c = createChunk ct strat cur := by
  split at hc
  · exact absurd hc (by simp)
  · simpa using hc

/-- Every character slice is at most `m + 1` long. -/
theorem charSlicesGo_le (m : ℕ) :
    ∀ (f : ℕ) (s : PyStr), ∀ p ∈ charSlicesGo m f s, p.length ≤ m + 1 := by
  intro f
  induction f with
  | zero =>
    intro s p hp
    cases s <;> simp [charSlicesGo] at hp
  | succ f ih =>
    intro s p hp
    cases s with
    | nil => simp [charSlicesGo] at hp
    | cons d t =>
      simp only [charSlicesGo, List.mem_cons] at hp
      rcases hp with h | h
      · rw [h, List.length_take]; omega
      · exact ih _ p h

/-- Every chunk emitted by `_chunk_by_characters` fits the budget. -/
theorem chunkByChars_le (max : ℕ) (ct : ChunkType) (s : PyStr) :
    ∀ c ∈ chunkByChars max ct s, c.content.length ≤ max := by
  intro c hc
  cases max with
  | zero => simp [chunkByChars, charSlices] at hc
  | succ m =>
    rw [chunkByChars, charSlices] at hc
    obtain ⟨p, hp, hcp⟩ := List.mem_map.mp hc
    rw [← hcp]
    exact charSlicesGo_le m _ s p hp

/-- One step of the word loop, with the `test` buffer inlined. -/
theorem goWords_cons (max : ℕ) (ct : ChunkType) (cur w : PyStr) (ws : List PyStr) :
    goWords max ct cur (w :: ws) =
      if (if cur = [] then w else cur ++ (' ' :: w)).length ≤ max then
        goWords max ct (if cur = [] then w else cur ++ (' ' :: w)) ws
      else
        (if cur = [] then [] else [createChunk ct .word_boundary cur]) ++
        (if max < w.length then chunkByChars max ct w ++ goWords max ct [] ws
         else goWords max ct w ws) := rfl

/-- One step of the sentence loop, with the `test` buffer inlined. -/
theorem goSent_cons (max : ℕ) (ct : ChunkType) (cur u : PyStr) (us : List PyStr) :
    goSent max ct cur (u :: us) =
      if pyStrip u = [] then goSent max ct cur us
      else if (if cur = [] then u else cur ++ (' ' :: u)).length ≤ max then
        goSent max ct (if cur = [] then u else cur ++ (' ' :: u)) us
      else
        (if cur = [] then [] else [createChunk ct .sentence_boundary cur]) ++
        (if max < u.length then chunkByWords max ct u ++ goSent max ct [] us
         else goSent max ct u us) := rfl

/-- One step of the line loop, with the `test` buffer inlined. -/
theorem goLines_cons (max : ℕ) (ct : ChunkType) (cur u : PyStr) (us : List PyStr) :
    goLines max ct cur (u :: us) =
      if (if cur = [] then u else cur ++ ('\n' :: u)).length ≤ max then
        goLines max ct (if cur = [] then u else cur ++ ('\n' :: u)) us
      else
        (if cur = [] then [] else [createChunk ct .line_boundary cur]) ++
        (if max < u.length then chunkByWords max ct u ++ goLines max ct [] us
         else goLines max ct u us) := rfl

/-- One step of the paragraph loop, with the `test` buffer inlined. -/
theorem goParas_cons (max : ℕ) (ct : ChunkType) (cur p : PyStr) (ps : List PyStr) :
    goParas max ct cur (p :: ps) =
      if pyStrip p = [] then goParas max ct cur ps
      else if (if cur = [] then p else cur ++ nl2 ++ p).length ≤ max then
        goParas max ct (if cur = [] then p else cur ++ nl2 ++ p) ps
      else
        (if cur = [] then [] else [createChunk ct .paragraph_boundary cur]) ++
        (if max < p.length then chunkBySentences max ct p ++ goParas max ct [] ps
         else goParas max ct p ps) := rfl

/-- The word loop keeps every emitted chunk within the budget whenever the
running buffer is within it. -/
theorem goWords_le (max : ℕ) (ct : ChunkType) :
    ∀ (ws : List PyStr) (cur : PyStr), cur.length ≤ max →
      ∀ c ∈ goWords max ct cur ws, c.content.length ≤ max := by
  intro ws
  induction ws with
  | nil =>
    intro cur hcur c hc
    rw [goWords] at hc
    rw [mem_flush hc]
    exact hcur
  | cons u us ih =>
    intro cur hcur c hc
    rw [goWords_cons] at hc
    by_cases hcw : cur = []
    · subst hcw
      simp only [eq_self_iff_true, ite_true, List.nil_append] at hc
      split at hc
      · rename_i hfit
        exact ih u hfit c hc
      · split at hc
        · rcases List.mem_append.mp hc with h2 | h2
          · exact chunkByChars_le max ct u c h2
          · exact ih [] (by simp) c h2
        · rename_i hbig
          exact ih u (by omega) c hc
    · rw [if_neg hcw, if_neg hcw] at hc
      split at hc
      · rename_i hfit
        exact ih _ hfit c hc
      · rcases List.mem_append.mp hc with h | h
        · rw [List.mem_singleton.mp h]
          exact hcur
        · split at h
          · rcases List.mem_append.mp h with h2 | h2
            · exact chunkByChars_le max ct u c h2
            · exact ih [] (by simp) c h2
          · rename_i hbig
            exact ih u (by omega) c h

/-- Every chunk emitted by `_chunk_by_words` fits the budget. -/
theorem chunkByWords_le (max : ℕ) (ct : ChunkType) (s : PyStr) :
    ∀ c ∈ chunkByWords max ct s, c.content.length ≤ max :=
  goWords_le max ct (pySplitWs s) [] (by simp)

/-- The sentence loop keeps every emitted chunk within the budget. -/
theorem goSent_le (max : ℕ) (ct : ChunkType) :
    ∀ (us : List PyStr) (cur : PyStr), cur.length ≤ max →
      ∀ c ∈ goSent max ct cur us, c.content.length ≤ max := by
  intro us
  induction us with
  | nil =>
    intro cur hcur c hc
    rw [goSent] at hc
    rw [mem_flush hc]
    exact hcur
  | cons u us ih =>
    intro cur hcur c hc
    rw [goSent_cons] at hc
    by_cases hsk : pyStrip u = []
    · rw [if_pos hsk] at hc
      exact ih cur hcur c hc
    · rw [if_neg hsk] at hc
      by_cases hcw : cur = []
      · subst hcw
        simp only [eq_self_iff_true, ite_true, List.nil_append] at hc
        split at hc
        · rename_i hfit
          exact ih u hfit c hc
        · split at hc
          · rcases List.mem_append.mp hc with h2 | h2
            · exact chunkByWords_le max ct u c h2
            · exact ih [] (by simp) c h2
          · rename_i hbig
            exact ih u (by omega) c hc
      · rw [if_neg hcw, if_neg hcw] at hc
        split at hc
        · rename_i hfit
          exact ih _ hfit c hc
        · rcases List.mem_append.mp hc with h | h
          · rw [List.mem_singleton.mp h]
            exact hcur
          · split at h
            · rcases List.mem_append.mp h with h2 | h2
              · exact chunkByWords_le max ct u c h2
              · exact ih [] (by simp) c h2
            · rename_i hbig
              exact ih u (by omega) c h

/-- Every chunk emitted by `_chunk_by_sentences` fits the budget. -/
theorem chunkBySentences_le (max : ℕ) (ct : ChunkType) (s : PyStr) :
    ∀ c ∈ chunkBySentences max ct s, c.content.length ≤ max :=
  goSent_le max ct (sentSplit s) [] (by simp)

/-- The line loop keeps every emitted chunk within the budget. -/
theorem goLines_le (max : ℕ) (ct : ChunkType) :
    ∀ (us : List PyStr) (cur : PyStr), cur.length ≤ max →
      ∀ c ∈ goLines max ct cur us, c.content.length ≤ max := by
  intro us
  induction us with
  | nil =>
    intro cur hcur c hc
    rw [goLines] at hc
    rw [mem_flush hc]
    exact hcur
  | cons u us ih =>
    intro cur hcur c hc
    rw [goLines_cons] at hc
    by_cases hcw : cur = []
    · subst hcw
      simp only [eq_self_iff_true, ite_true, List.nil_append] at hc
      split at hc
      · rename_i hfit
        exact ih u hfit c hc
      · split at hc
        · rcases List.mem_append.mp hc with h2 | h2
          · exact chunkByWords_le max ct u c h2
          · exact ih [] (by simp) c h2
        · rename_i hbig
          exact ih u (by omega) c hc
    · rw [if_neg hcw, if_neg hcw] at hc
      split at hc
      · rename_i hfit
        exact ih _ hfit c hc
      · rcases List.mem_append.mp hc with h | h
        · rw [List.mem_singleton.mp h]
          exact hcur
        · split at h
          · rcases List.mem_append.mp h with h2 | h2
            · exact chunkByWords_le max ct u c h2
            · exact ih [] (by simp) c h2
          · rename_i hbig
            exact ih u (by omega) c h

/-- Every chunk emitted by `_chunk_by_lines` fits the budget. -/
theorem chunkByLines_le (max : ℕ) (ct : ChunkType) (s : PyStr) :
    ∀ c ∈ chunkByLines max ct s, c.content.length ≤ max :=
  goLines_le max ct (pySplitOn nlS s) [] (by simp)

/-- The paragraph loop keeps every emitted chunk within the budget. -/
theorem goParas_le (max : ℕ) (ct : ChunkType) :
    ∀ (ps : List PyStr) (cur : PyStr), cur.length ≤ max →
      ∀ c ∈ goParas max ct cur ps, c.content.length ≤ max := by
  intro ps
  induction ps with
  | nil =>
    intro cur hcur c hc
    rw [goParas] at hc
    rw [mem_flush hc]
    exact hcur
  | cons u us ih =>
    intro cur hcur c hc
    rw [goParas_cons] at hc
    by_cases hsk : pyStrip u = []
    · rw [if_pos hsk] at hc
      exact ih cur hcur c hc
    · rw [if_neg hsk] at hc
      by_cases hcw : cur = []
      · subst hcw
        simp only [eq_self_iff_true, ite_true, List.nil_append] at hc
        split at hc
        · rename_i hfit
          exact ih u hfit c hc
        · split at hc
          · rcases List.mem_append.mp hc with h2 | h2
            · exact chunkBySentences_le max ct u c h2
            · exact ih [] (by simp) c h2
          · rename_i hbig
            exact ih u (by omega) c hc
      · rw [if_neg hcw, if_neg hcw] at hc
        split at hc
        · rename_i hfit
          exact ih _ hfit c hc
        · rcases List.mem_append.mp hc with h | h
          · rw [List.mem_singleton.mp h]
            exact hcur
          · split at h
            · rcases List.mem_append.mp h with h2 | h2
              · exact chunkBySentences_le max ct u c h2
              · exact ih [] (by simp) c h2
            · rename_i hbig
              exact ih u (by omega) c h

/-- Every chunk emitted by `_chunk_by_paragraphs` fits the budget. -/
theorem chunkByParagraphs_le (max : ℕ) (ct : ChunkType) (s : PyStr) :
    ∀ c ∈ chunkByParagraphs max ct s, c.content.length ≤ max :=
  goParas_le max ct (pySplitOn nl2 s) [] (by simp)

/-- The metadata pass does not change chunk contents. -/
theorem addMetaGo_contents (cfg : ChunkerCfg) (n : ℕ) (orig : PyStr) :
    ∀ (i : ℕ) (chunks : List MessageChunk),
      (addMetaGo cfg n orig i chunks).map (fun c => c.content) =
        chunks.map (fun c => c.content) := by
  intro i chunks
  induction chunks generalizing i with
  | nil => rfl
  | cons c cs ih => simp [addMetaGo, addMetaOne, ih]

/-- C2 counterexample: with budget 5 and default flags, the input
`aa  bb  cc` produces a chunk whose fully decorated Telegram message
(navigation header, continuation marker, `Part i/N` footer) is far longer
than `max_chunk_size`, so the decorated-length bound claimed does not hold. -/
theorem C2_counterexample :
    ¬ (∀ c ∈ chunk_message
          { max_chunk_size := 5, preserve_code_blocks := true
            preserve_markdown := true, add_navigation := true
            add_previews := true }
          (("aa  bb  cc").data) none none,
        (c.to_telegram_message true).length ≤ 5) := by
  decide

/-- C2 amended: unless the effective content type is Code with
`preserve_code_blocks` set (the code-block strategy), every chunk returned by
`chunk_message` has raw (undecorated) content of length at most
`max_chunk_size`; the decoration added by `to_telegram_message` can exceed
the budget and is only covered by the safety margin between
`SAFE_MESSAGE_LENGTH` and Telegram's hard limit. -/
theorem C2_raw_size_bound (cfg : ChunkerCfg) (content : PyStr)
    (title : Option PyStr) (ctype : Option ChunkType)
    (hsafe : ¬ (effContentType content ctype = ChunkType.code ∧
                cfg.preserve_code_blocks = true)) :
    ∀ c ∈ chunk_message cfg content title ctype,
      c.content.length ≤ cfg.max_chunk_size := by
  intro c hc
  unfold chunk_message at hc
  split at hc
  · exact absurd hc (by simp)
  · split at hc
    · rename_i hle
      rw [List.mem_singleton.mp hc]
      exact hle
    · unfold addChunkMetadata at hc
      have hmem : c.content ∈
          ((chunkByStrategy cfg.max_chunk_size
            (chooseStrategy cfg (titledContent content title)
              (effContentType content ctype))
            (effContentType content ctype)
            (titledContent content title)).map (fun x => x.content)) := by
        rw [← addMetaGo_contents cfg _ _ 0]
        exact List.mem_map_of_mem _ hc
      obtain ⟨c0, hc0, hcc⟩ := List.mem_map.mp hmem
      rw [← hcc]
      cases hst : chooseStrategy cfg (titledContent content title)
          (effContentType content ctype) with
      | code_block_boundary =>
        exfalso
        unfold chooseStrategy at hst
        rcases hct : effContentType content ctype with _ | _ | _ | _ | _ | _ <;>
          rw [hct] at hst <;> simp_all <;> split at hst <;> simp_all
      | paragraph_boundary =>
        rw [hst] at hc0
        exact chunkByParagraphs_le _ _ _ c0 hc0
      | sentence_boundary =>
        rw [hst] at hc0
        exact chunkBySentences_le _ _ _ c0 hc0
      | line_boundary =>
        rw [hst] at hc0
        exact chunkByLines_le _ _ _ c0 hc0
      | word_boundary =>
        rw [hst] at hc0
        exact chunkByWords_le _ _ _ c0 hc0
      | character_boundary =>
        rw [hst] at hc0
        exact chunkByChars_le _ _ _ c0 hc0

/-- C2 witness: the counterexample input is Text-typed, so the amended raw
bound applies to it. -/
theorem C2_witness :
    ¬ (effContentType (("aa  bb  cc").data) none = ChunkType.code ∧
       (ChunkerCfg.preserve_code_blocks
         { max_chunk_size := 5, preserve_code_blocks := true
           preserve_markdown := true, add_navigation := true
           add_previews := true }) = true) ∧
    ∀ c ∈ chunk_message
        { max_chunk_size := 5, preserve_code_blocks := true
          preserve_markdown := true, add_navigation := true
          add_previews := true }
        (("aa  bb  cc").data) none none,
      c.content.length ≤ 5 :=
  ⟨by decide, C2_raw_size_bound _ _ none none (by decide)⟩

/-! ## Claim C1 -/

/-- The paragraph loop never returns an empty chunk list when its buffer is
nonempty. -/
theorem goParas_ne_nil (max : ℕ) (ct : ChunkType) :
    ∀ (ps : List PyStr) (cur : PyStr), cur ≠ [] → goParas max ct cur ps ≠ [] := by
  intro ps
  induction ps with
  | nil =>
    intro cur hcur
    simp [goParas, hcur]
  | cons p ps ih =>
    intro cur hcur
    rw [goParas_cons]
    split
    · exact ih cur hcur
    · split
      · exact ih _ (by simp [hcur])
      · simp

/-- The paragraph loop is a pure grouping when every paragraph is nonempty
(after strip) and within budget: joining its chunk contents with a blank
line restores the joined input paragraphs in order. -/
theorem goParas_join (max : ℕ) (ct : ChunkType) :
    ∀ (ps : List PyStr) (cur : PyStr),
      (∀ p ∈ ps, pyStrip p ≠ [] ∧ p.length ≤ max) →
      joinSep nl2 ((goParas max ct cur ps).map (fun c => c.content)) =
        joinSep nl2 (if cur = [] then ps else cur :: ps) := by
  intro ps
  induction ps with
  | nil =>
    intro cur _
    by_cases hc : cur = []
    · simp [goParas, hc, joinSep]
    · simp [goParas, hc, joinSep, createChunk]
  | cons p ps ih =>
    intro cur h
    have hp := h p (List.mem_cons_self p ps)
    have hps : ∀ q ∈ ps, pyStrip q ≠ [] ∧ q.length ≤ max :=
      fun q hq => h q (List.mem_cons_of_mem p hq)
    have hpne : p ≠ [] := fun he => hp.1 (by simp [he, pyStrip])
    rw [goParas_cons, if_neg hp.1]
    by_cases hc : cur = []
    · subst hc
      simp only [eq_self_iff_true, ite_true, List.nil_append]
      rw [if_pos hp.2, ih p hps, if_neg hpne]
    · rw [if_neg hc, if_neg hc]
      by_cases hfit : (cur ++ nl2 ++ p).length ≤ max
      · rw [if_pos hfit, ih _ hps]
        have hne2 : cur ++ nl2 ++ p ≠ [] := by simp [hc]
        rw [if_neg hne2, if_neg hc]
        rw [joinSep_cons_eq,
          joinSep_cons_of_ne nl2 cur (p :: ps) (List.cons_ne_nil p ps),
          joinSep_cons_eq]
        split <;> simp [List.append_assoc]
      · rw [if_neg hfit, if_neg (show ¬ max < p.length by omega)]
        rw [if_neg hc, List.map_append]
        have hrest : (goParas max ct p ps).map (fun c => c.content) ≠ [] := by
          simpa using goParas_ne_nil max ct ps p hpne
        rw [show ([createChunk ct .paragraph_boundary cur].map (fun c => c.content)) ++
              ((goParas max ct p ps).map (fun c => c.content)) =
            cur :: ((goParas max ct p ps).map (fun c => c.content)) from rfl]
        rw [joinSep_cons_of_ne nl2 cur _ hrest, ih p hps, if_neg hpne,
          joinSep_cons_of_ne nl2 cur (p :: ps) (List.cons_ne_nil p ps)]

/-- C1 counterexample: with budget 5, the input `aa  bb  cc` falls through
sentence splitting to word splitting, which collapses the double spaces and
drops the boundary between chunks, so concatenating the raw contents of the
(non-summary) chunks yields `aa bbcc`, not the original input. -/
theorem C1_counterexample :
    (((chunk_message
        { max_chunk_size := 5, preserve_code_blocks := true
          preserve_markdown := true, add_navigation := true
          add_previews := true }
        (("aa  bb  cc").data) none none).filter
        (fun c => decide (c.metadata.chunk_index ≠ -1))).map
        (fun c => c.content)).flatten ≠ (("aa  bb  cc").data) := by
  decide

/-- C1 amended: for the paragraph strategy, when the input's blank-line
paragraphs are each nonempty after strip and within the budget, joining the
chunks' raw contents with the blank-line separator restores the input
exactly; plain concatenation (and inputs outside this form) can lose
inter-unit whitespace at chunk boundaries. -/
theorem C1_paragraph_reassembly (max : ℕ) (ct : ChunkType) (content : PyStr)
    (h : ∀ p ∈ pySplitOn nl2 content, pyStrip p ≠ [] ∧ p.length ≤ max) :
    joinSep nl2 ((chunkByParagraphs max ct content).map (fun c => c.content)) =
      content := by
  unfold chunkByParagraphs
  rw [goParas_join max ct _ [] h, if_pos rfl]
  exact joinSep_pySplitOn '\n' ['\n'] content

/-- C1 witness: three short paragraphs are regrouped into chunks whose
blank-line join is the original input. -/
theorem C1_witness :
    (∀ p ∈ pySplitOn nl2 (("aaa\n\nbb\n\ncc").data),
      pyStrip p ≠ [] ∧ p.length ≤ 5) ∧
    joinSep nl2 ((chunkByParagraphs 5 ChunkType.text
        (("aaa\n\nbb\n\ncc").data)).map (fun c => c.content)) =
      (("aaa\n\nbb\n\ncc").data) :=
  ⟨by decide, C1_paragraph_reassembly 5 ChunkType.text _ (by decide)⟩

/-! ## Claim C3 -/

/-- `acquire` never changes the limiter's configuration fields. -/
theorem acquire_fields (rl : RateLimiter) (now : ℤ) :
    ((acquire rl now).2).max_requests = rl.max_requests ∧
    ((acquire rl now).2).time_window = rl.time_window := by
  rw [acquire]
  split <;> simp

/-- `runAcq` never changes the limiter's configuration fields. -/
theorem runAcq_fields (ts : List ℤ) :
    ∀ rl : RateLimiter,
      ((runAcq rl ts).1).max_requests = rl.max_requests ∧
      ((runAcq rl ts).1).time_window = rl.time_window := by
  induction ts with
  | nil => intro rl; simp [runAcq]
  | cons t ts ih =>
    intro rl
    rw [runAcq]
    refine ⟨?_, ?_⟩ <;>
      simp only [(ih (acquire rl t).2).1, (ih (acquire rl t).2).2,
        (acquire_fields rl t).1, (acquire_fields rl t).2]

/-- Running one more call is running the prefix and then one `acquire`. -/
theorem runAcq_append (ts : List ℤ) (x : ℤ) :
    ∀ rl : RateLimiter,
      runAcq rl (ts ++ [x]) =
        ((acquire (runAcq rl ts).1 x).2,
         (runAcq rl ts).2 ++ [(x, (acquire (runAcq rl ts).1 x).1)]) := by
  induction ts with
  | nil => intro rl; simp [runAcq]
  | cons t ts ih =>
    intro rl
    rw [List.cons_append, runAcq, runAcq, ih (acquire rl t).2]
    rfl

/-- `admittedTimes` distributes over log concatenation. -/
theorem admittedTimes_append (l1 l2 : List (ℤ × Bool)) :
    admittedTimes (l1 ++ l2) = admittedTimes l1 ++ admittedTimes l2 := by
  simp [admittedTimes]

/-- Window invariant: at any observation time `u` no earlier than every call
so far, the tracked timestamps that are still inside the window at `u` are
exactly the admitted call times still inside the window at `u` (pruning only
ever discards timestamps that have left the window). -/
theorem runAcq_requests_filter (R : ℕ) (W : ℤ) (ts : List ℤ)
    (hs : ts.Pairwise (· ≤ ·)) :
    ∀ u : ℤ, (∀ s ∈ ts, s ≤ u) →
      ((runAcq (mkRL R W) ts).1.requests).filter (fun r => decide (u - r < W)) =
        (admittedTimes (runAcq (mkRL R W) ts).2).filter
          (fun r => decide (u - r < W)) := by
  induction ts using List.reverseRecOn with
  | nil => intro u _; simp [runAcq, admittedTimes, mkRL]
  | append_singleton ts x ih =>
    intro u hu
    rw [List.pairwise_append] at hs
    have hts : ts.Pairwise (· ≤ ·) := hs.1
    have htx : ∀ a ∈ ts, a ≤ x := fun a ha => hs.2.2 a ha x (by simp)
    have hxu : x ≤ u := hu x (by simp)
    have hpre : ∀ s ∈ ts, s ≤ u := fun s hsm => hu s (by simp [hsm])
    rw [runAcq_append, admittedTimes_append]
    have hW : ((runAcq (mkRL R W) ts).1).time_window = W := (runAcq_fields ts _).2
    have hfilters : ∀ l : List ℤ,
        (l.filter (fun r => decide (x - r < W))).filter (fun r => decide (u - r < W)) =
          l.filter (fun r => decide (u - r < W)) := by
      intro l
      rw [List.filter_filter]
      apply List.filter_congr
      intro a _
      by_cases hua : u - a < W
      · have : x - a < W := by omega
        simp [hua, this]
      · simp [hua]
    rw [acquire]
    simp only [pruneReqs, hW]
    split
    · simp only [List.filter_append, admittedTimes, List.filter_cons,
        List.filter_nil, List.map_cons, List.map_nil]
      rw [hfilters, ih hts u hpre]
      simp only [admittedTimes]
      by_cases huxW : u - x < W <;> simp [huxW]
    · simp only [List.filter_append, admittedTimes, List.filter_cons,
        List.filter_nil, List.map_nil]
      rw [hfilters, ih hts u hpre]
      simp [admittedTimes]

/-- The admitted times of a one-call log. -/
theorem admittedTimes_single (x : ℤ) (b : Bool) :
    admittedTimes [(x, b)] = if b = true then [x] else [] := by
  cases b <;> simp [admittedTimes]

/-- C3: starting from a fresh limiter and any non-decreasing sequence of
call times, the number of admitted `acquire()` calls whose timestamps lie in
any sliding window `(t, t + W]` never exceeds `max_requests`; and `acquire`
admits (recording the new timestamp) exactly when the count remaining after
pruning timestamps older than the window is below `max_requests`. -/
theorem C3_sliding_window (R : ℕ) (W : ℤ) (ts : List ℤ) (t : ℤ)
    (hs : ts.Pairwise (· ≤ ·)) :
    ((admittedTimes (runAcq (mkRL R W) ts).2).filter
        (fun a => decide (t < a) && decide (a ≤ t + W))).length ≤ R ∧
    (∀ (rl : RateLimiter) (now : ℤ),
      (acquire rl now).1 = true ↔ (pruneReqs rl now).length < rl.max_requests) := by
  constructor
  · induction ts using List.reverseRecOn with
    | nil => simp [runAcq, admittedTimes, mkRL]
    | append_singleton ts x ih =>
      rw [List.pairwise_append] at hs
      have hts : ts.Pairwise (· ≤ ·) := hs.1
      have htx : ∀ a ∈ ts, a ≤ x := fun a ha => hs.2.2 a ha x (by simp)
      rw [runAcq_append, admittedTimes_append, List.filter_append,
        List.length_append]
      by_cases hok : (acquire (runAcq (mkRL R W) ts).1 x).1 = true
      · by_cases hwin : (decide (t < x) && decide (x ≤ t + W)) = true
        · -- the new call is admitted inside the window: the pruned count
          -- bounds the previously admitted calls inside the window
          have hR : ((runAcq (mkRL R W) ts).1).max_requests = R :=
            (runAcq_fields ts _).1
          have hW : ((runAcq (mkRL R W) ts).1).time_window = W :=
            (runAcq_fields ts _).2
          have hlt : (pruneReqs (runAcq (mkRL R W) ts).1 x).length < R := by
            rw [acquire] at hok
            by_cases hc : (pruneReqs (runAcq (mkRL R W) ts).1 x).length <
                ((runAcq (mkRL R W) ts).1).max_requests
            · rw [hR] at hc; exact hc
            · rw [if_neg hc] at hok; simp at hok
          have hxw : x ≤ t + W := by simpa using (Bool.and_elim_right hwin)
          have hcount :
              ((admittedTimes (runAcq (mkRL R W) ts).2).filter
                (fun a => decide (t < a) && decide (a ≤ t + W))).length ≤
              ((admittedTimes (runAcq (mkRL R W) ts).2).filter
                (fun r => decide (x - r < W))).length := by
            rw [← List.countP_eq_length_filter, ← List.countP_eq_length_filter]
            apply List.countP_mono_left
            intro a _ ha
            have h1 : t < a := by simpa using (Bool.and_elim_left ha)
            simp only [decide_eq_true_eq]
            omega
          have hpruned :
              ((admittedTimes (runAcq (mkRL R W) ts).2).filter
                (fun r => decide (x - r < W))).length =
              (pruneReqs (runAcq (mkRL R W) ts).1 x).length := by
            rw [pruneReqs, hW,
              runAcq_requests_filter R W ts hts x htx]
          have hone : ((admittedTimes
              [(x, (acquire (runAcq (mkRL R W) ts).1 x).1)]).filter
                (fun a => decide (t < a) && decide (a ≤ t + W))).length ≤ 1 := by
            rw [admittedTimes_single, if_pos hok]
            simp [List.filter_cons]
            split <;> simp
          have := le_trans hcount (le_of_eq hpruned)
          omega
        · have hwin2 : (decide (t < x) && decide (x ≤ t + W)) = false :=
            eq_false_of_ne_true hwin
          have hz : (admittedTimes
              [(x, (acquire (runAcq (mkRL R W) ts).1 x).1)]).filter
                (fun a => decide (t < a) && decide (a ≤ t + W)) = [] := by
            rw [admittedTimes_single, if_pos hok]
            simp [List.filter_cons, hwin2]
          rw [hz]
          simpa using ih hts
      · have hz : admittedTimes
            [(x, (acquire (runAcq (mkRL R W) ts).1 x).1)] = [] := by
          rw [admittedTimes_single, if_neg hok]
        rw [hz]
        simpa using ih hts
  · intro rl now
    rw [acquire]
    split
    · rename_i hcond
      simpa using hcond
    · rename_i hcond
      simpa using hcond

/-- C3 witness: with one request per minute allowed, two calls at times 0
and 30 admit only the first, and the window `(0, 60]` holds at most one
admitted call. -/
theorem C3_witness :
    ([(0 : ℤ), 30].Pairwise (· ≤ ·)) ∧
    ((admittedTimes (runAcq (mkRL 1 60) [(0 : ℤ), 30]).2).filter
        (fun a => decide (0 < a) && decide (a ≤ 0 + 60))).length ≤ 1 :=
  ⟨by decide, (C3_sliding_window 1 60 [(0 : ℤ), 30] 0 (by decide)).1⟩

/-! ## Claim C8 -/

/-- Specification of the send loop of `send_mcp_message_to_telegram` for a
run whose transport outcomes are the message ids `ids` followed by a failure
or the end of the attempt list: the loop sends exactly `ids`, records one
fresh correlation entry per successfully sent chunk, leaves unrelated keys
alone, and maps the `j`-th transport id to the call id suffixed with chunk
index `i0 + j`. -/
theorem sendGo_spec (callId : String) :
    ∀ (ids : List ℕ) (chunks : List MessageChunk) (rest : List (Option ℕ))
      (corr : List (String × String)) (calls : List String) (i0 : ℕ),
      ids.length ≤ chunks.length →
      (∀ n : ℕ, rest.head? ≠ some (some n)) →
      (ids.map (fun n => toString n)).Nodup →
      (∀ n ∈ ids, corr.any (fun p => p.1 == toString n) = false) →
      (sendGo corr calls callId i0 chunks (ids.map some ++ rest)).1 = ids ∧
      ((sendGo corr calls callId i0 chunks (ids.map some ++ rest)).2.1).length =
        corr.length + ids.length ∧
      (∀ k : String, (∀ n ∈ ids, toString n ≠ k) →
        dictLookup ((sendGo corr calls callId i0 chunks (ids.map some ++ rest)).2.1) k =
          dictLookup corr k) ∧
      (∀ j, (hj : j < ids.length) →
        dictLookup ((sendGo corr calls callId i0 chunks (ids.map some ++ rest)).2.1)
          (toString (ids.get ⟨j, hj⟩)) =
          some (callId ++ "_chunk_" ++ toString (i0 + j))) := by
  intro ids
  induction ids with
  | nil =>
    intro chunks rest corr calls i0 _ hrest _ _
    have hdone : sendGo corr calls callId i0 chunks rest = ([], corr, calls) := by
      cases chunks with
      | nil => rw [sendGo]
      | cons c cs =>
        cases rest with
        | nil => rw [sendGo]
        | cons r rs =>
          have hr : r = none := by
            cases r with
            | none => rfl
            | some n => exact absurd rfl (hrest n)
          subst hr
          rw [sendGo]
    refine ⟨by simp [hdone], by simp [hdone], fun k _ => by simp [hdone],
      fun j hj => absurd hj (by simp)⟩
  | cons id ids ih =>
    intro chunks rest corr calls i0 hlen hrest hnodup hfresh
    cases chunks with
    | nil => simp at hlen
    | cons c cs =>
      have hkey : ∀ n ∈ ids, toString n ≠ toString id := by
        intro n hn
        simp only [List.map_cons, List.nodup_cons, List.mem_map] at hnodup
        exact fun he => hnodup.1 ⟨n, hn, he⟩
      have hnodup2 : (ids.map (fun n => toString n)).Nodup := by
        simp only [List.map_cons, List.nodup_cons] at hnodup
        exact hnodup.2
      have hfresh2 : ∀ n ∈ ids,
          (dictSet corr (toString id)
            (callId ++ "_chunk_" ++ toString i0)).any
              (fun p => p.1 == toString n) = false := by
        intro n hn
        rw [any_dictSet_ne _ _ _ _ (hkey n hn)]
        exact hfresh n (List.mem_cons_of_mem id hn)
      have hlen2 : ids.length ≤ cs.length := by simpa using hlen
      obtain ⟨ih1, ih2, ih3, ih4⟩ :=
        ih cs rest (dictSet corr (toString id) (callId ++ "_chunk_" ++ toString i0))
          (setAdd calls (callId ++ "_chunk_" ++ toString i0)) (i0 + 1)
          hlen2 hrest hnodup2 hfresh2
      have hstep : sendGo corr calls callId i0 (c :: cs)
          ((id :: ids).map some ++ rest) =
          (id :: (sendGo (dictSet corr (toString id)
              (callId ++ "_chunk_" ++ toString i0))
            (setAdd calls (callId ++ "_chunk_" ++ toString i0))
            callId (i0 + 1) cs (ids.map some ++ rest)).1,
           (sendGo (dictSet corr (toString id)
              (callId ++ "_chunk_" ++ toString i0))
            (setAdd calls (callId ++ "_chunk_" ++ toString i0))
            callId (i0 + 1) cs (ids.map some ++ rest)).2) := by
        rw [List.map_cons, List.cons_append, sendGo]
      rw [hstep]
      have hfid : corr.any (fun p => p.1 == toString id) = false :=
        hfresh id (List.mem_cons_self id ids)
      refine ⟨by rw [ih1], ?_, ?_, ?_⟩
      · rw [ih2, length_dictSet_fresh corr _ _ hfid]
        simp only [List.length_cons]
        omega
      · intro k hk
        have hk2 : ∀ n ∈ ids, toString n ≠ k :=
          fun n hn => hk n (List.mem_cons_of_mem id hn)
        rw [ih3 k hk2,
          dictLookup_dictSet_ne _ _ _ _ (Ne.symm (hk id (List.mem_cons_self id ids)))]
      · intro j hj
        cases j with
        | zero =>
          show dictLookup _ (toString id) = _
          rw [ih3 (toString id) hkey, dictLookup_dictSet_self]
          norm_num
        | succ j =>
          have hj2 : j < ids.length := by simpa using hj
          have := ih4 j hj2
          show dictLookup _ (toString (ids.get ⟨j, hj2⟩)) = _
          rw [this]
          have harith : i0 + 1 + j = i0 + (j + 1) := by omega
          rw [harith]

/-- With a known session, the correlation map after
`send_mcp_message_to_telegram` is the one produced by the send loop. -/
theorem send_mcp_corr_eq (b : Bridge) (sid callId : String) (msg : PyStr)
    (results : List (Option ℕ)) (now : ℤ) (sess : TelegramSession)
    (hsess : dictLookup b.active_sessions sid = some sess) :
    (send_mcp_message_to_telegram b sid callId msg results now).2.message_correlation =
      (sendGo b.message_correlation sess.active_mcp_calls callId 0
        (outgoingChunks b.chunker msg) results).2.1 := by
  unfold send_mcp_message_to_telegram
  rw [hsess]

/-- With a known session, `send_mcp_message_to_telegram` returns the ids the
send loop collected (or `None` when none were sent). -/
theorem send_mcp_ids_eq (b : Bridge) (sid callId : String) (msg : PyStr)
    (results : List (Option ℕ)) (now : ℤ) (sess : TelegramSession)
    (hsess : dictLookup b.active_sessions sid = some sess) :
    (send_mcp_message_to_telegram b sid callId msg results now).1 =
      (if (sendGo b.message_correlation sess.active_mcp_calls callId 0
            (outgoingChunks b.chunker msg) results).1 = [] then none
       else some (sendGo b.message_correlation sess.active_mcp_calls callId 0
            (outgoingChunks b.chunker msg) results).1) := by
  unfold send_mcp_message_to_telegram
  rw [hsess]

/-- C8: when a logical message is sent as chunks and the transport assigns
the (nonzero, distinct, previously unseen) message ids `ids` to the
successfully sent chunks before failing or finishing, the bridge records
exactly one correlation entry per successfully sent chunk, the returned ids
are exactly `ids`, the `j`-th transport id maps to the call id suffixed
`_chunk_j`, and the reply-to resolution used by `handle_telegram_response`
resolves that transport id back to the suffixed call id. -/
theorem C8_send_correlation (b : Bridge) (sid callId : String) (msg : PyStr)
    (now : ℤ) (sess : TelegramSession) (ids : List ℕ) (rest : List (Option ℕ))
    (hsess : dictLookup b.active_sessions sid = some sess)
    (hlen : ids.length ≤ (outgoingChunks b.chunker msg).length)
    (hrest : ∀ n : ℕ, rest.head? ≠ some (some n))
    (hnodup : (ids.map (fun n => toString n)).Nodup)
    (hfresh : ∀ n ∈ ids,
      b.message_correlation.any (fun p => p.1 == toString n) = false)
    (hpos : ∀ n ∈ ids, n ≠ 0) :
    (send_mcp_message_to_telegram b sid callId msg (ids.map some ++ rest) now).1 =
      (if ids = [] then none else some ids) ∧
    ((send_mcp_message_to_telegram b sid callId msg (ids.map some ++ rest)
        now).2.message_correlation).length =
      b.message_correlation.length + ids.length ∧
    (∀ j, (hj : j < ids.length) →
      dictLookup ((send_mcp_message_to_telegram b sid callId msg
          (ids.map some ++ rest) now).2.message_correlation)
        (toString (ids.get ⟨j, hj⟩)) =
        some (callId ++ "_chunk_" ++ toString j)) ∧
    (∀ j, (hj : j < ids.length) →
      resolveCallId ((send_mcp_message_to_telegram b sid callId msg
          (ids.map some ++ rest) now).2.message_correlation)
        (some (ids.get ⟨j, hj⟩)) =
        some (callId ++ "_chunk_" ++ toString j)) := by
  obtain ⟨h1, h2, _, h4⟩ := sendGo_spec callId ids (outgoingChunks b.chunker msg)
    rest b.message_correlation sess.active_mcp_calls 0 hlen hrest hnodup hfresh
  have hlook : ∀ j, (hj : j < ids.length) →
      dictLookup ((send_mcp_message_to_telegram b sid callId msg
          (ids.map some ++ rest) now).2.message_correlation)
        (toString (ids.get ⟨j, hj⟩)) =
        some (callId ++ "_chunk_" ++ toString j) := by
    intro j hj
    rw [send_mcp_corr_eq b sid callId msg _ now sess hsess, h4 j hj, Nat.zero_add]
  refine ⟨?_, ?_, hlook, ?_⟩
  · rw [send_mcp_ids_eq b sid callId msg _ now sess hsess, h1]
  · rw [send_mcp_corr_eq b sid callId msg _ now sess hsess, h2]
  · intro j hj
    have hj0 : ids.get ⟨j, hj⟩ ≠ 0 := hpos _ (ids.get_mem j hj)
    rw [resolveCallId, if_neg hj0]
    exact hlook j hj

/-- C8 witness: one chunk sent with transport id 7 records the entry
`7 -> call_chunk_0` and resolves a reply to id 7 back to it. -/
theorem C8_witness :
    dictLookup bridgeFix.active_sessions ("s") = some sessFix ∧
    ((send_mcp_message_to_telegram bridgeFix ("s") ("call") (("hi").data)
        ([(7 : ℕ)].map some ++ []) 4).1 = (if [(7 : ℕ)] = [] then none else some [7]) ∧
     ((send_mcp_message_to_telegram bridgeFix ("s") ("call") (("hi").data)
        ([(7 : ℕ)].map some ++ []) 4).2.message_correlation).length =
       bridgeFix.message_correlation.length + [(7 : ℕ)].length ∧
     (∀ j, (hj : j < [(7 : ℕ)].length) →
       dictLookup ((send_mcp_message_to_telegram bridgeFix ("s") ("call")
           (("hi").data) ([(7 : ℕ)].map some ++ []) 4).2.message_correlation)
         (toString ([(7 : ℕ)].get ⟨j, hj⟩)) =
         some (("call") ++ "_chunk_" ++ toString j)) ∧
     (∀ j, (hj : j < [(7 : ℕ)].length) →
       resolveCallId ((send_mcp_message_to_telegram bridgeFix ("s") ("call")
           (("hi").data) ([(7 : ℕ)].map some ++ []) 4).2.message_correlation)
         (some ([(7 : ℕ)].get ⟨j, hj⟩)) =
         some (("call") ++ "_chunk_" ++ toString j))) :=
  ⟨by decide,
    C8_send_correlation bridgeFix ("s") ("call") (("hi").data) 4 sessFix
      [7] [] (by decide) (by decide) (fun n => by simp) (by decide)
      (by decide) (by decide)⟩

end MCPFeedback
